import Mathlib

/-!
Verification of the watchman policy gate (Go) against its specification.

The Go sources are shallowly embedded: Go strings are modelled as `List Char`
(rune sequences; on ASCII input this coincides with Go's byte-level view),
Go slices as `List`, Go maps built by repeated assignment as association
lists where the last write wins, and external collaborators
(`os.Getwd`, `os.UserHomeDir`, the git change counter, `regexp`, the
external hook executor) as explicit parameters.  Machine integers are
modelled as `Int`.  The `float64` arithmetic of the incremental rule is
modelled bit-exactly: configuration ratios are carried as the exact `ℚ`
value written in the configuration, and `warnThreshold` rounds them (and
every intermediate result) to IEEE-754 binary64 with round-to-nearest,
ties-to-even, before truncating toward zero as Go's `int(...)` conversion
does.
-/

set_option maxHeartbeats 1000000
set_option maxRecDepth 8000
set_option exponentiation.threshold 1200

/-- A Go string, viewed as its sequence of runes. -/
abbrev GoStr := List Char

/-- Convert a Lean string literal into the embedding's string type. -/
def gstr (s : String) : GoStr := s.data

/-- The single-quote character (U+0027). -/
def sqc : Char := Char.ofNat 39

/-- The backslash character (U+005C). -/
def bsl : Char := Char.ofNat 92

/-- The horizontal tab character (U+0009). -/
def tab : Char := Char.ofNat 9

/-- The newline character (U+000A). -/
def nl : Char := Char.ofNat 10

/-! ## Go `strings` package primitives -/

/-- `strings.HasPrefix s pre`. -/
def goHasPre (s pre : GoStr) : Bool := pre.isPrefixOf s

/-- `strings.HasSuffix s suf`. -/
def goHasSuf (s suf : GoStr) : Bool := suf.isSuffixOf s

/-- `strings.TrimPrefix s pre`: removes `pre` once when present. -/
def goTrimPre (s pre : GoStr) : GoStr :=
  if goHasPre s pre then s.drop pre.length else s

/-- `strings.TrimSuffix s suf`: removes `suf` once when present. -/
def goTrimSuf (s suf : GoStr) : GoStr :=
  if goHasSuf s suf then s.take (s.length - suf.length) else s

/-- `strings.Contains s sub` (substring occurrence). -/
def goContainsSub (s sub : GoStr) : Bool :=
  match s with
  | [] => sub.isPrefixOf ([] : GoStr)
  | _ :: t => sub.isPrefixOf s || goContainsSub t sub

/-- Membership of a single character (`strings.Contains` with a 1-rune needle,
`strings.ContainsRune`, `strings.IndexByte >= 0`). -/
def goContainsChar (s : GoStr) (c : Char) : Bool := s.contains c

/-- Go's `unicode.IsSpace` restricted to the ASCII white-space characters
(space, tab, newline, vertical tab, form feed, carriage return); the inputs
relevant to this development contain no exotic Unicode white space. -/
def goIsSpace (c : Char) : Bool :=
  c = ' ' || c = tab || c = nl || c = Char.ofNat 11 || c = Char.ofNat 12 || c = Char.ofNat 13

/-- `strings.TrimSpace`. -/
def goTrimSpace (s : GoStr) : GoStr :=
  (s.dropWhile goIsSpace).reverse.dropWhile goIsSpace |>.reverse

/-- Accumulating pass of `strings.Fields` (current run kept reversed). -/
def fieldsAux : List Char → GoStr → List GoStr
  | [], cur => if cur ≠ [] then [cur.reverse] else []
  | c :: t, cur =>
    if goIsSpace c then
      if cur ≠ [] then cur.reverse :: fieldsAux t [] else fieldsAux t []
    else fieldsAux t (c :: cur)

/-- `strings.Fields`: the maximal runs of non-white-space characters. -/
def goFields (s : GoStr) : List GoStr := fieldsAux s []

/-- `strings.Index s sub`: index of the first occurrence, `none` when absent. -/
def goIndexSub (s sub : GoStr) : Option Nat :=
  match s with
  | [] => if sub.isPrefixOf ([] : GoStr) then some 0 else none
  | _ :: t =>
    if sub.isPrefixOf s then some 0
    else (goIndexSub t sub).map (· + 1)

/-- Split a string on a single character (`strings.Split` with a 1-rune
separator); keeps empty fields. -/
def splitOnChar (s : GoStr) (c : Char) : List GoStr :=
  match s with
  | [] => [[]]
  | d :: t =>
    let rest := splitOnChar t c
    if d = c then [] :: rest
    else
      match rest with
      | [] => [[d]]
      | r :: rs => (d :: r) :: rs

/-- Join a list of strings with a single-character separator
(`strings.Join` with a 1-rune separator). -/
def joinWithChar (xs : List GoStr) (c : Char) : GoStr :=
  match xs with
  | [] => []
  | [x] => x
  | x :: y :: t => x ++ c :: joinWithChar (y :: t) c

/-- `strings.Join` with an arbitrary separator. -/
def joinWithSep (xs : List GoStr) (sep : GoStr) : GoStr :=
  match xs with
  | [] => []
  | [x] => x
  | x :: y :: t => x ++ sep ++ joinWithSep (y :: t) sep

/-- ASCII lower-casing of one character, as used by Go's
`strings.EqualFold` on ASCII input. -/
def asciiLower (c : Char) : Char :=
  if 'A' ≤ c ∧ c ≤ 'Z' then Char.ofNat (c.toNat + 32) else c

/-- `strings.EqualFold`, restricted to ASCII simple folding (the tool names
compared in this program are ASCII). -/
def goEqualFold (a b : GoStr) : Bool :=
  a.map asciiLower = b.map asciiLower

/-- The package-local `itoa` helper from the policy package (decimal digits
of a non-negative `int`; returns "0" for 0). -/
def itoaNat (n : Nat) : GoStr :=
  if n = 0 then gstr "0" else (Nat.toDigits 10 n)

/-- `itoa` over Go `int`, as used by the policy package (its callers only
pass non-negative values; the Go original would return "" for negatives,
looping zero times). -/
def itoa (n : Int) : GoStr :=
  if n ≤ 0 then (if n = 0 then gstr "0" else []) else itoaNat n.toNat

/-! ## Go `path/filepath` package (Unix rules, `Separator = '/'`) -/

/-- `filepath.IsAbs` on Unix: the path starts with `/`. -/
def goIsAbs (p : GoStr) : Bool := goHasPre p (gstr "/")

/-- One step of lexical path cleaning over a component stack (most recent
component first).  Empty and `.` components are dropped; `..` pops a
preceding non-`..` component, is dropped at the root of a rooted path, and
is kept otherwise. -/
def cleanStep (rooted : Bool) (stack : List GoStr) (comp : GoStr) : List GoStr :=
  if comp = [] ∨ comp = gstr "." then stack
  else if comp = gstr ".." then
    match stack with
    | [] => if rooted then [] else [gstr ".."]
    | top :: rest => if top = gstr ".." then comp :: stack else rest
  else comp :: stack

/-- `filepath.Clean` (Unix): lexical normalisation — collapse repeated
separators, drop `.` components, resolve `..` against preceding components,
drop `..` at the root, no trailing separator, `""` and all-dots collapse to
`"."`.  Implemented over the `/`-separated components; it computes the same
string as Go's buffer-based loop. -/
def goClean (p : GoStr) : GoStr :=
  if p = [] then gstr "."
  else
    let rooted := goIsAbs p
    let stack := (splitOnChar p '/').foldl (cleanStep rooted) []
    let body := joinWithChar stack.reverse '/'
    if rooted then '/' :: body
    else if body = [] then gstr "." else body

/-- `filepath.Join` of two elements (Unix): skip leading empty elements,
join the rest with `/`, and `Clean` the result. -/
def goJoin2 (a b : GoStr) : GoStr :=
  if a = [] then
    if b = [] then [] else goClean b
  else goClean (a ++ '/' :: b)

/-- `filepath.Base` (Unix): `"."` for the empty path, otherwise the last
component after stripping trailing separators; `"/"` when the path is all
separators. -/
def goBase (p : GoStr) : GoStr :=
  if p = [] then gstr "."
  else
    let q := p.reverse.dropWhile (· = '/') |>.reverse
    let last := (q.reverse.takeWhile (· ≠ '/')).reverse
    if q = [] then gstr "/"
    else if last = [] then q else last

example : goClean (gstr "/etc/../etc/passwd") = gstr "/etc/passwd" := by decide
example : goClean (gstr "./src/../src/main.go") = gstr "src/main.go" := by decide
example : goClean (gstr "a/b/../../../c") = gstr "../c" := by decide
example : goClean (gstr "/..") = gstr "/" := by decide
example : goClean (gstr "foo/../..") = gstr ".." := by decide
example : goClean (gstr "") = gstr "." := by decide
example : goClean (gstr "a//b/./c/") = gstr "a/b/c" := by decide
example : goJoin2 (gstr "/home/u") (gstr ".ssh/id_rsa") = gstr "/home/u/.ssh/id_rsa" := by decide
example : goJoin2 (gstr "/a") (gstr "") = gstr "/a" := by decide
example : goBase (gstr "/some/project/.watchman.yml") = gstr ".watchman.yml" := by decide
example : goBase (gstr "///") = gstr "/" := by decide
example : goBase (gstr "a/b/") = gstr "b" := by decide

/-! ## `internal/parser`: shell command parsing -/

/-- First character of an environment-variable name (`[A-Z_]`). -/
def isEnvHeadChar (c : Char) : Bool := ('A' ≤ c && c ≤ 'Z') || c = '_'

/-- Subsequent character of an environment-variable name (`[A-Z0-9_]`). -/
def isEnvNameChar (c : Char) : Bool := isEnvHeadChar c || ('0' ≤ c && c ≤ '9')

/-- The compiled pattern `^([A-Z_][A-Z0-9_]*)=(.*)$` (`envVarPattern`):
returns the name/value pair when the token is an environment assignment.
In RE2 without multiline mode `.` does not match a newline and `$` anchors
at the end of the text, so a token whose value part contains a newline is
not an assignment. -/
def envVarSplit (tok : GoStr) : Option (GoStr × GoStr) :=
  match tok with
  | [] => none
  | c :: _ =>
    if isEnvHeadChar c then
      let run := tok.takeWhile isEnvNameChar
      match tok.drop run.length with
      | '=' :: v => if goContainsChar v nl then none else some (run, v)
      | _ => none
    else none

/-- `parser.parseFlag`: split a flag token at its first `=`;
value is empty when there is no `=`. -/
def parseFlag (tok : GoStr) : GoStr × GoStr :=
  let pre := tok.takeWhile (· ≠ '=')
  if pre.length = tok.length then (tok, [])
  else (pre, tok.drop (pre.length + 1))

/-- `parser.hasSubcommand`: programs that typically take a subcommand. -/
def hasSubcommandProg (prog : GoStr) : Bool :=
  [gstr "go", gstr "git", gstr "make", gstr "docker",
   gstr "kubectl", gstr "npm", gstr "yarn", gstr "cargo"].contains prog

/-- Add a key/value pair to an association list representing a Go map that
was built left-to-right by assignment: when combining from the right, an
earlier write survives only if no later write used the same key. -/
def addIfNew (k v : GoStr) (m : List (GoStr × GoStr)) : List (GoStr × GoStr) :=
  if m.any (fun e => e.1 = k) then m else (k, v) :: m

/-- `parser.tokenize` state machine: split on unquoted blanks; single quotes
are literal containers; double quotes allow backslash escapes; a bare
backslash escapes the next rune. -/
def parTok : List Char → Bool → Bool → Bool → GoStr → List GoStr
  | [], _, _, _, cur => if cur ≠ [] then [cur] else []
  | r :: rest, inS, inD, esc, cur =>
    if esc then parTok rest inS inD false (cur ++ [r])
    else if r = bsl then
      if inS then parTok rest inS inD false (cur ++ [r])
      else parTok rest inS inD true cur
    else if r = sqc then
      if !inD then parTok rest (!inS) inD false cur
      else parTok rest inS inD false (cur ++ [r])
    else if r = '"' then
      if !inS then parTok rest inS (!inD) false cur
      else parTok rest inS inD false (cur ++ [r])
    else if r = ' ' || r = tab then
      if inS || inD then parTok rest inS inD false (cur ++ [r])
      else if cur ≠ [] then cur :: parTok rest inS inD false []
      else parTok rest inS inD false []
    else parTok rest inS inD false (cur ++ [r])

/-- `parser.tokenize` entry point. -/
def tokenizeCmd (cmd : GoStr) : List GoStr := parTok cmd false false false []

/-- The leading environment-assignment loop of `parser.Parse`: consume
tokens matching `envVarPattern` into the env map, return the rest. -/
def envLoop : List GoStr → (List (GoStr × GoStr)) × List GoStr
  | [] => ([], [])
  | t :: rest =>
    match envVarSplit t with
    | some nv => (addIfNew nv.1 nv.2 (envLoop rest).1, (envLoop rest).2)
    | none => ([], t :: rest)

/-- The flags-and-args loop of `parser.Parse`: a `-`-token is a flag; a flag
without an embedded value adopts the next token exactly when that token does
not begin with `-`, does not begin with `.` or `/`, and contains no `/`;
every other token is appended to `args`. -/
def flagsLoop : List GoStr → (List (GoStr × GoStr)) × List GoStr
  | [] => ([], [])
  | [t] =>
    if goHasPre t (gstr "-") then
      let kv := parseFlag t
      ([(kv.1, kv.2)], [])
    else ([], [t])
  | t :: next :: rest2 =>
    if goHasPre t (gstr "-") then
      let kv := parseFlag t
      if kv.2 = [] then
        if !goHasPre next (gstr "-") && !goHasPre next (gstr ".")
            && !goHasPre next (gstr "/") && !goContainsChar next '/' then
          (addIfNew kv.1 next (flagsLoop rest2).1, (flagsLoop rest2).2)
        else
          (addIfNew kv.1 [] (flagsLoop (next :: rest2)).1, (flagsLoop (next :: rest2)).2)
      else
        (addIfNew kv.1 kv.2 (flagsLoop (next :: rest2)).1, (flagsLoop (next :: rest2)).2)
    else
      ((flagsLoop (next :: rest2)).1, t :: (flagsLoop (next :: rest2)).2)

/-- `parser.Command`. -/
structure PCommand where
  raw : GoStr
  env : List (GoStr × GoStr)
  program : GoStr
  subcommand : GoStr
  args : List GoStr
  flags : List (GoStr × GoStr)
deriving DecidableEq, Repr

/-- The token pipeline of `parser.Parse` before the flags-and-args loop:
leading env assignments, program, optional subcommand; returns the env map,
program, subcommand and the remaining tokens. -/
def preStages (raw : GoStr) : (List (GoStr × GoStr)) × GoStr × GoStr × List GoStr :=
  let cmd := goTrimSpace raw
  if cmd = [] then ([], [], [], [])
  else
    let er := envLoop (tokenizeCmd cmd)
    match er.2 with
    | [] => (er.1, [], [], [])
    | prog :: rest2 =>
      match rest2 with
      | t :: r3 =>
        if !goHasPre t (gstr "-") && hasSubcommandProg prog then (er.1, prog, t, r3)
        else (er.1, prog, [], rest2)
      | [] => (er.1, prog, [], [])

/-- The remaining tokens handed to the flags-and-args loop of
`parser.Parse` (after env assignments, program and subcommand). -/
def flagRegion (raw : GoStr) : List GoStr := (preStages raw).2.2.2

/-- `parser.Parse`. -/
def wParse (raw : GoStr) : PCommand :=
  let st := preStages raw
  let fa := flagsLoop st.2.2.2
  ⟨raw, st.1, st.2.1, st.2.2.1, fa.2, fa.1⟩

example : wParse (gstr "") = ⟨gstr "", [], [], [], [], []⟩ := by decide
example : wParse (gstr "ls") = ⟨gstr "ls", [], gstr "ls", [], [], []⟩ := by decide
example : (wParse (gstr "go test ./...")).args = [gstr "./..."] := by decide
example : (wParse (gstr "go test ./...")).subcommand = gstr "test" := by decide
example : (wParse (gstr "GOMODCACHE=/tmp/mod go test ./...")).env
    = [(gstr "GOMODCACHE", gstr "/tmp/mod")] := by decide
example : (wParse (gstr "FOO= ls")).env = [(gstr "FOO", gstr "")] := by decide
example : (wParse (gstr "go test -coverprofile=/tmp/cover.out ./...")).flags
    = [(gstr "-coverprofile", gstr "/tmp/cover.out")] := by decide
example : (wParse (gstr "rm -rf /")).args = [gstr "/"] := by decide
example : (wParse (gstr "rm -rf /")).flags = [(gstr "-rf", gstr "")] := by decide

/-! ## `internal/hook/evaluator.go`: command segmentation and
command-position matching -/

/-- Scanner state for `splitCommandSegments`: outside quotes, inside a
quote, or inside a quote right after a backslash (the Go loop copies the
backslash and then unconditionally copies the following byte). -/
inductive SegState where
  | norm : SegState
  | inQ : Char → SegState
  | esc : Char → SegState
deriving DecidableEq

/-- `hook.splitCommandSegments`: split a shell command on `|`, `||`, `&&`
and `;` outside quotes; `&` alone stays in the segment (background job);
quoted runs are copied verbatim with backslash pairs kept together.  The Go
original walks the string with a nested quote-scanning loop; this is the
same scanner with the loop state made explicit. -/
def splitSegsAux : Nat → List Char → SegState → GoStr → List GoStr
  | 0, _, _, cur => if cur ≠ [] then [cur] else []
  | _ + 1, [], _, cur => if cur ≠ [] then [cur] else []
  | fuel + 1, c :: rest, SegState.esc q, cur => splitSegsAux fuel rest (SegState.inQ q) (cur ++ [c])
  | fuel + 1, c :: rest, SegState.inQ q, cur =>
    if c = q then splitSegsAux fuel rest SegState.norm (cur ++ [c])
    else if c = bsl then splitSegsAux fuel rest (SegState.esc q) (cur ++ [c])
    else splitSegsAux fuel rest (SegState.inQ q) (cur ++ [c])
  | fuel + 1, c :: rest, SegState.norm, cur =>
    if c = '|' then
      match rest with
      | '|' :: r2 => cur :: splitSegsAux fuel r2 SegState.norm []
      | _ => cur :: splitSegsAux fuel rest SegState.norm []
    else if c = '&' then
      match rest with
      | '&' :: r2 => cur :: splitSegsAux fuel r2 SegState.norm []
      | _ => splitSegsAux fuel rest SegState.norm (cur ++ [c])
    else if c = ';' then cur :: splitSegsAux fuel rest SegState.norm []
    else if c = sqc || c = '"' then splitSegsAux fuel rest (SegState.inQ c) (cur ++ [c])
    else splitSegsAux fuel rest SegState.norm (cur ++ [c])

/-- `hook.splitCommandSegments` entry point.  The fuel argument of the
scanner only bounds the recursion; one unit per input character always
suffices, so the entry point supplies the input length. -/
def splitCommandSegments (cmd : GoStr) : List GoStr :=
  splitSegsAux (cmd.length + 1) cmd SegState.norm []

/-- `hook.tokenize`: split a segment into blank-separated tokens, dropping
quote characters and keeping quoted content together. -/
def segTok : List Char → Option Char → GoStr → List GoStr
  | [], _, cur => if cur ≠ [] then [cur] else []
  | c :: rest, some q, cur =>
    if c = q then segTok rest none cur else segTok rest (some q) (cur ++ [c])
  | c :: rest, none, cur =>
    if c = sqc || c = '"' then segTok rest (some c) cur
    else if c = ' ' || c = tab then
      if cur ≠ [] then cur :: segTok rest none [] else segTok rest none []
    else segTok rest none (cur ++ [c])

/-- `hook.tokenize` entry point. -/
def tokenizeSeg (s : GoStr) : List GoStr := segTok s none []

/-- `hook.extractCommandName`: first token of a segment that is not an
environment-style assignment (a token containing `=` and not starting
with `-` is skipped). -/
def extractCommandName (seg : GoStr) : GoStr :=
  let toks := tokenizeSeg (goTrimSpace seg)
  match toks.find? (fun tok => !(goContainsChar tok '=' && !goHasPre tok (gstr "-"))) with
  | some tok => tok
  | none => []

/-- `hook.isCommandInPosition`: the pattern equals the command (first
non-assignment token) of some non-blank segment. -/
def isCommandInPosition (cmd pattern : GoStr) : Bool :=
  (splitCommandSegments cmd).any (fun seg =>
    let sg := goTrimSpace seg
    sg ≠ [] && extractCommandName sg = pattern)

/-- `hook.Evaluator.isCommandBlocked`: returns the first matching block
pattern (or `""`).  A pattern containing a space is matched as a substring
of the whole command; any other pattern must occur in command position. -/
def isCommandBlocked (blockPats : List GoStr) (cmd : GoStr) : GoStr :=
  match blockPats with
  | [] => []
  | p :: rest =>
    if goContainsChar p ' ' then
      if goContainsSub cmd p then p else isCommandBlocked rest cmd
    else if isCommandInPosition cmd p then p else isCommandBlocked rest cmd

example : isCommandInPosition (gstr "cd pkg/plp/middleware && go test") (gstr "dd") = false := by decide
example : isCommandInPosition (gstr "echo add") (gstr "dd") = false := by decide
example : isCommandInPosition (gstr "cat /path/to/odd/file") (gstr "dd") = false := by decide
example : isCommandInPosition (gstr "dd if=/dev/zero of=file") (gstr "dd") = true := by decide
example : isCommandInPosition (gstr "ls | dd of=file") (gstr "dd") = true := by decide
example : isCommandInPosition (gstr "VAR=value dd if=/dev/zero") (gstr "dd") = true := by decide
example : isCommandInPosition (gstr "ls && dd of=out") (gstr "dd") = true := by decide
example : isCommandInPosition (gstr "ls; dd of=out") (gstr "dd") = true := by decide
example : isCommandInPosition (gstr "ls || dd of=out") (gstr "dd") = true := by decide
example : (splitCommandSegments (gstr "ls | grep foo && pwd")).length = 3 := by decide
example : extractCommandName (gstr "FOO=1 BAR=2 command arg") = gstr "command" := by decide
example : extractCommandName (gstr "  dd if=/dev/zero") = gstr "dd" := by decide
example : isCommandBlocked [gstr "sudo", gstr "rm -rf"] (gstr "sudo apt install") = gstr "sudo" := by decide
example : isCommandBlocked [gstr "sudo", gstr "rm -rf"] (gstr "rm -rf /") = gstr "rm -rf" := by decide
example : isCommandBlocked [gstr "sudo", gstr "rm -rf"] (gstr "ls -la") = gstr "" := by decide

/-! ## `internal/policy`: decisions, matcher A (path prefixes), the
protected oracle and the workspace rule -/

/-- `policy.Decision`. -/
structure Decision where
  allowed : Bool
  reason : GoStr := []
  warning : GoStr := []
deriving DecidableEq

/-- `policy.matchPath` (matcher A): tilde expansion of the pattern against
the resolved home directory, exact equality, directory-pattern match for
patterns ending in `/`, and otherwise prefix match at a `/` boundary.  The
home directory is the `os.UserHomeDir` result (`none` models an error, in
which case the pattern is left unexpanded).  The Go original tests
`pattern+"/"` and `pattern+string(filepath.Separator)`, identical on
Unix. -/
def matchPath (home : Option GoStr) (path pattern : GoStr) : Bool :=
  let pat := if goHasPre pattern (gstr "~/") then
      match home with
      | some h => goJoin2 h (pattern.drop 2)
      | none => pattern
    else pattern
  if path = pat then true
  else if goHasSuf pat (gstr "/") then
    goHasPre path pat || path = goTrimSuf pat (gstr "/")
  else goHasPre path (pat ++ gstr "/")

/-- `policy.alwaysProtected`: the hardcoded protected locations.
Entries ending in `/` are directory subtrees, others are exact files. -/
def alwaysProtectedPats : List GoStr :=
  [gstr "~/.claude/", gstr "~/.ssh/", gstr "~/.aws/", gstr "~/.gnupg/",
   gstr "~/.gpg/", gstr "~/.config/gh/", gstr "~/.config/watchman/",
   gstr "~/.netrc", gstr "~/.git-credentials", gstr "~/go/bin/watchman"]

/-- `policy.protectedFilenames`: basenames protected in any directory. -/
def protectedFilenames : List GoStr := [gstr ".watchman.yml"]

/-- The path-resolution step of `policy.IsAlwaysProtected` (confine.go):
absolute paths are cleaned; relative paths are joined onto the working
directory when `os.Getwd` succeeds and otherwise left untouched. -/
def protectedResolve (cwd : Option GoStr) (p : GoStr) : GoStr :=
  if goIsAbs p then goClean p
  else
    match cwd with
    | some c => goClean (goJoin2 c p)
    | none => p

/-- `policy.IsAlwaysProtected` (confine.go): true when the resolved path has
a protected basename, lies in a protected directory subtree, or is a
protected file.  `home` and `cwd` are the `os.UserHomeDir` / `os.Getwd`
results (`none` models an error). -/
def IsAlwaysProtected (home cwd : Option GoStr) (p : GoStr) : Bool :=
  if p = [] then false
  else
    let absPath := protectedResolve cwd p
    protectedFilenames.contains (goBase absPath) ||
    alwaysProtectedPats.any (fun pattern =>
      let isDir := goHasSuf pattern (gstr "/")
      let expanded0 := goTrimSuf pattern (gstr "/")
      let expanded := if goHasPre expanded0 (gstr "~/") then
          match home with
          | some h => goJoin2 h (expanded0.drop 2)
          | none => expanded0
        else expanded0
      if isDir then absPath = expanded || goHasPre absPath (expanded ++ gstr "/")
      else absPath = expanded)

/-- `policy.ConfineToWorkspace`. -/
structure ConfineToWorkspace where
  allow : List GoStr
  block : List GoStr

/-- `ConfineToWorkspace.isBlocked`. -/
def confineIsBlocked (home : Option GoStr) (r : ConfineToWorkspace) (p : GoStr) : Bool :=
  r.block.any (fun pattern => matchPath home p pattern)

/-- `ConfineToWorkspace.isAllowed`. -/
def confineIsAllowed (home : Option GoStr) (r : ConfineToWorkspace) (p : GoStr) : Bool :=
  r.allow.any (fun pattern => matchPath home p pattern)

/-- `ConfineToWorkspace.violatesBoundary`: a non-empty path violates the
boundary when the working directory is unavailable (fail closed), or when
its absolute form is neither the cleaned working directory nor under it and
no allow pattern matches the raw path. -/
def violatesBoundary (home cwd : Option GoStr) (r : ConfineToWorkspace) (p : GoStr) : Bool :=
  if p = [] then false
  else
    match cwd with
    | none => true
    | some c =>
      let absPath := if goIsAbs p then goClean p else goClean (goJoin2 c p)
      let cwdClean := goClean c
      let isInside := absPath = cwdClean || goHasPre absPath (cwdClean ++ gstr "/")
      if isInside then false
      else if confineIsAllowed home r p then false
      else true

/-- `policy.collectPathCandidates`: args, non-empty flag values, env
values. -/
def collectPathCandidates (cmd : PCommand) : List GoStr :=
  cmd.args ++ (cmd.flags.map (·.2)).filter (· ≠ []) ++ cmd.env.map (·.2)

/-- The candidate loop of `ConfineToWorkspace.Evaluate`. -/
def confineLoop (home cwd : Option GoStr) (r : ConfineToWorkspace) : List GoStr → Decision
  | [] => { allowed := true }
  | p :: rest =>
    if IsAlwaysProtected home cwd p then
      { allowed := false,
        reason := gstr "path is protected and cannot be accessed. User must perform this action manually." }
    else if confineIsBlocked home r p then
      { allowed := false, reason := gstr "path is blocked by configuration: " ++ p }
    else if violatesBoundary home cwd r p then
      { allowed := false, reason := gstr "cannot access paths outside the project workspace" }
    else confineLoop home cwd r rest

/-- `ConfineToWorkspace.Evaluate`. -/
def confineEval (home cwd : Option GoStr) (r : ConfineToWorkspace) (cmd : PCommand) : Decision :=
  confineLoop home cwd r (collectPathCandidates cmd)

example :
    IsAlwaysProtected (some (gstr "/home/u")) (some (gstr "/home/u/proj"))
      (gstr "/home/u/.ssh/id_rsa") = true := by decide
example :
    IsAlwaysProtected (some (gstr "/home/u")) (some (gstr "/home/u/proj"))
      (gstr "/home/u/.sshkeys") = false := by decide
example :
    IsAlwaysProtected (some (gstr "/home/u")) (some (gstr "/home/u/proj"))
      (gstr ".watchman.yml") = true := by decide
example :
    IsAlwaysProtected (some (gstr "/home/u")) (some (gstr "/home/u/proj"))
      (gstr "src/main.go") = false := by decide
example :
    IsAlwaysProtected (some (gstr "/home/u")) (some (gstr "/home/u/proj"))
      (gstr "/home/u/.ssh") = true := by decide
example : matchPath none (gstr "/etc/ssh/sshd_config") (gstr "/etc/ssh/") = true := by decide
example : matchPath none (gstr "/etc/ssh") (gstr "/etc/ssh/") = true := by decide
example : matchPath none (gstr "/etc/ssh/sshd_config") (gstr "/etc/ssh") = true := by decide
example : matchPath none (gstr "/etc/sshd") (gstr "/etc/ssh") = false := by decide
example :
    matchPath (some (gstr "/home/u")) (gstr "/home/u/.ssh/id_rsa") (gstr "~/.ssh/") = true := by
  decide
example :
    (confineEval (some (gstr "/h")) (some (gstr "/h/proj")) ⟨[], []⟩
      (wParse (gstr "rm -rf /"))).allowed = false := by decide
example :
    (confineEval (some (gstr "/h")) (some (gstr "/h/proj")) ⟨[], []⟩
      (wParse (gstr "GOMODCACHE=/tmp/mod go test ./..."))).allowed = false := by decide
example :
    (confineEval (some (gstr "/h")) (some (gstr "/h/proj")) ⟨[], []⟩
      (wParse (gstr "go test ./..."))).allowed = true := by decide
example :
    (confineEval (some (gstr "/h")) (some (gstr "/h/proj")) ⟨[gstr "/tmp/"], []⟩
      ⟨[], [], [], [], [gstr "/tmp/test.txt"], []⟩).allowed = true := by decide
example :
    (confineEval (some (gstr "/h")) (some (gstr "/h/proj")) ⟨[], [gstr ".env"]⟩
      ⟨[], [], [], [], [gstr ".env"], []⟩).allowed = false := by decide

/-! ## Matcher B: `filepath.Match`, `policy.matchDoublestar`,
`policy.matchGlob`, and the scope rule -/

/-- `filepath.getEsc`: one (possibly escaped) class character; fails on a
leading `-` or `]`, a trailing escape, or when nothing follows the
character (a class must still be closed by `]`). -/
def getEsc : GoStr → Option (Char × GoStr)
  | [] => none
  | c :: rest =>
    if c = '-' || c = ']' then none
    else if c = bsl then
      match rest with
      | [] => none
      | d :: r2 => if r2 = [] then none else some (d, r2)
    else if rest = [] then none else some (c, rest)

/-- The character-class loop of `filepath.matchChunk`: parse ranges until a
closing `]` (which must follow at least one range), recording whether the
rune `r` fell in any range.  Fuel-bounded (each step consumes input); one
unit per character suffices. -/
def classScan : Nat → Char → GoStr → Bool → Bool → Option (GoStr × Bool)
  | 0, _, _, _, _ => none
  | fuel + 1, r, chunk, m, started =>
    match chunk with
    | ']' :: rest =>
      if started then some (rest, m)
      else none
    | _ =>
      match getEsc chunk with
      | none => none
      | some (lo, c1) =>
        match c1 with
        | '-' :: c2 =>
          match getEsc c2 with
          | none => none
          | some (hi, c3) => classScan fuel r c3 (m || (decide (lo ≤ r) && decide (r ≤ hi))) true
        | _ => classScan fuel r c1 (m || (lo = r)) true

/-- `filepath.matchChunk`, with match failure and pattern malformation
conflated into `none` (Go distinguishes them, but `policy.matchGlob`
discards the error, and a malformed chunk can never match at any position,
so the final verdict is unchanged).  Returns the unconsumed input on
success.  Fuel-bounded; one unit per chunk character suffices. -/
def matchChunkO : Nat → GoStr → GoStr → Option GoStr
  | 0, _, _ => none
  | _ + 1, [], s => some s
  | fuel + 1, c :: rest, s =>
    if c = '[' then
      match s with
      | [] => none
      | r :: s2 =>
        let nc : Bool × GoStr :=
          match rest with
          | '^' :: t => (true, t)
          | _ => (false, rest)
        match classScan (nc.2.length + 1) r nc.2 false false with
        | none => none
        | some (c2, m) => if m = nc.1 then none else matchChunkO fuel c2 s2
    else if c = '?' then
      match s with
      | [] => none
      | d :: s2 => if d = '/' then none else matchChunkO fuel rest s2
    else if c = bsl then
      match rest with
      | [] => none
      | e :: r2 =>
        match s with
        | [] => none
        | d :: s2 => if e = d then matchChunkO fuel r2 s2 else none
    else
      match s with
      | [] => none
      | d :: s2 => if c = d then matchChunkO fuel rest s2 else none

/-- The chunk-delimiting scan of `filepath.scanChunk`: copy up to the next
`*` that is not inside a character class, keeping escape pairs together.
Fuel-bounded; one unit per character suffices. -/
def chunkScanF : Nat → GoStr → Bool → GoStr × GoStr
  | 0, p, _ => ([], p)
  | _ + 1, [], _ => ([], [])
  | fuel + 1, c :: rest, inrange =>
    if c = bsl then
      match rest with
      | d :: r2 =>
        let r := chunkScanF fuel r2 inrange
        (c :: d :: r.1, r.2)
      | [] =>
        let r := chunkScanF fuel [] inrange
        (c :: r.1, r.2)
    else if c = '[' then
      let r := chunkScanF fuel rest true
      (c :: r.1, r.2)
    else if c = ']' then
      let r := chunkScanF fuel rest false
      (c :: r.1, r.2)
    else if c = '*' then
      if inrange then
        let r := chunkScanF fuel rest true
        (c :: r.1, r.2)
      else ([], c :: rest)
    else
      let r := chunkScanF fuel rest inrange
      (c :: r.1, r.2)

/-- `filepath.scanChunk`: strip leading stars, then scan one chunk. -/
def scanChunk (p : GoStr) : Bool × GoStr × GoStr :=
  let p2 := p.dropWhile (· = '*')
  let cr := chunkScanF (p2.length + 1) p2 false
  (decide (p2.length ≠ p.length), cr.1, cr.2)

mutual

/-- `filepath.Match` main loop (Unix): consume star-separated chunks; a
trailing star matches any separator-free remainder; a chunk either matches
in place or, under a star, at successive skip positions before the next
separator.  Fuel-bounded; `|pattern| + |name| + 2` units suffice. -/
def goMatchF : Nat → GoStr → GoStr → Bool
  | 0, _, _ => false
  | fuel + 1, pattern, name =>
    match pattern with
    | [] => decide (name = [])
    | _ :: _ =>
      let sc := scanChunk pattern
      if sc.1 && sc.2.1 = [] then !goContainsChar name '/'
      else
        match matchChunkO (sc.2.1.length + 1) sc.2.1 name with
        | some t =>
          if t = [] || sc.2.2 ≠ [] then goMatchF fuel sc.2.2 t
          else if sc.1 then starTryF fuel sc.2.1 sc.2.2 name
          else false
        | none => if sc.1 then starTryF fuel sc.2.1 sc.2.2 name else false

/-- The star-skip loop of `filepath.Match`: try the chunk at each position
after skipping one more non-separator character. -/
def starTryF : Nat → GoStr → GoStr → GoStr → Bool
  | 0, _, _, _ => false
  | fuel + 1, chunk, rest, name =>
    match name with
    | [] => false
    | c :: tail =>
      if c = '/' then false
      else
        match matchChunkO (chunk.length + 1) chunk tail with
        | some t =>
          if rest = [] && t ≠ [] then starTryF fuel chunk rest tail
          else goMatchF fuel rest t
        | none => starTryF fuel chunk rest tail

end

/-- `filepath.Match` with the error discarded, as `policy.matchGlob` uses
it. -/
def goMatch (pattern name : GoStr) : Bool :=
  goMatchF (pattern.length + name.length + 2) pattern name

/-- `strings.Split` general worker (non-empty separator); fuel-bounded,
one unit per input character suffices. -/
def splitOnSubF : Nat → GoStr → GoStr → List GoStr
  | 0, s, _ => [s]
  | fuel + 1, s, sep =>
    if sep = [] then [s]
    else
      match goIndexSub s sep with
      | none => [s]
      | some i => s.take i :: splitOnSubF fuel (s.drop (i + sep.length)) sep

/-- `strings.Split` with a non-empty separator. -/
def splitOnSub (s sep : GoStr) : List GoStr := splitOnSubF (s.length + 1) s sep

/-- The candidate loop of `policy.matchDoublestar`: match the suffix glob
against every tail of the path components, and against the bare final
component when only one component remains. -/
def dsLoop (suf : GoStr) : List GoStr → Bool
  | [] => false
  | x :: rest =>
    goMatch suf (joinWithChar (x :: rest) '/') ||
    (if rest = [] then goMatch suf x else false) ||
    dsLoop suf rest

/-- `policy.matchDoublestar`: split the pattern at `**` (exactly one
occurrence, or no match), require the literal path prefix, then match the
suffix glob against the component tails of the remainder. -/
def matchDoublestar (path pattern : GoStr) : Bool :=
  match splitOnSub pattern (gstr "**") with
  | [pre0, suf0] =>
    let pre := goTrimSuf pre0 (gstr "/")
    let suf := goTrimPre suf0 (gstr "/")
    if pre ≠ [] && !goHasPre path pre then false
    else if suf = [] then true
    else
      let remaining := if pre ≠ [] then goTrimPre (goTrimPre path pre) (gstr "/") else path
      if suf = [] then true
      else dsLoop suf (splitOnChar remaining '/')
  | _ => false

/-- `policy.matchGlob` (matcher B): clean both sides, use the `**` matcher
when the pattern contains `**`, otherwise `filepath.Match` against the path
and against its basename. -/
def matchGlob (path pattern : GoStr) : Bool :=
  let path := goClean path
  let pattern := goClean pattern
  if goContainsSub pattern (gstr "**") then matchDoublestar path pattern
  else goMatch pattern path || goMatch pattern (goBase path)

/-- `policy.writeTools`: the tools the scope rule applies to. -/
def writeTools : List GoStr := [gstr "Write", gstr "Edit", gstr "NotebookEdit"]

/-- `policy.ScopeToFiles`. -/
structure ScopeToFiles where
  allow : List GoStr
  block : List GoStr

/-- `ScopeToFiles.isBlocked`. -/
def scopeIsBlocked (r : ScopeToFiles) (p : GoStr) : Bool :=
  r.block.any (fun pattern => matchGlob p pattern)

/-- `ScopeToFiles.isInScope`: with no allow patterns everything is in
scope; otherwise some allow pattern must match. -/
def scopeIsInScope (r : ScopeToFiles) (p : GoStr) : Bool :=
  if r.allow = [] then true
  else r.allow.any (fun pattern => matchGlob p pattern)

/-- The candidate loop of `ScopeToFiles.Evaluate`. -/
def scopeLoop (r : ScopeToFiles) : List GoStr → Decision
  | [] => { allowed := true }
  | p :: rest =>
    if scopeIsBlocked r p then
      { allowed := false, reason := gstr "path is blocked by scope configuration: " ++ p }
    else if !scopeIsInScope r p then
      { allowed := false, reason := gstr "path is outside allowed scope: " ++ p }
    else scopeLoop r rest

/-- `ScopeToFiles.Evaluate`: a no-op for non-write tools. -/
def scopeEval (r : ScopeToFiles) (toolName : GoStr) (cmd : PCommand) : Decision :=
  if !writeTools.contains toolName then { allowed := true }
  else scopeLoop r (collectPathCandidates cmd)

example : matchGlob (gstr "src/main.go") (gstr "src/**/*.go") = true := by decide
example : matchGlob (gstr "src/pkg/util.go") (gstr "src/**/*.go") = true := by decide
example : matchGlob (gstr "vendor/lib.go") (gstr "src/**/*.go") = false := by decide
example : matchGlob (gstr "types_generated.go") (gstr "**/*_generated.go") = true := by decide
example : matchGlob (gstr ".env") (gstr ".env") = true := by decide
example : matchGlob (gstr "vendor/lib/file.go") (gstr "vendor/**") = true := by decide
example : matchGlob (gstr "src/types_generated.go") (gstr "**/*_generated.go") = true := by decide
example : matchGlob (gstr "internal/api.go") (gstr "**/*_generated.go") = false := by decide
example : matchGlob (gstr "analysis/test.ipynb") (gstr "notebooks/*.ipynb") = false := by decide
example : matchGlob (gstr "notebooks/test.ipynb") (gstr "notebooks/*.ipynb") = true := by decide
example : goMatch (gstr "a[b-d]?e") (gstr "ace/") = false := by decide
example : goMatch (gstr "a[b-d]ze") (gstr "acze") = true := by decide
example : goMatch (gstr "a[^b]c") (gstr "azc") = true := by decide
example : goMatch (gstr "a[^b]c") (gstr "abc") = false := by decide
example : goMatch (gstr "*.go") (gstr "main.go") = true := by decide
example : goMatch (gstr "*.go") (gstr "dir/main.go") = false := by decide
example :
    (scopeEval ⟨[gstr "src/**/*.go"], []⟩ (gstr "Write")
      ⟨[], [], [], [], [gstr "vendor/lib.go"], []⟩).allowed = false := by decide
example :
    (scopeEval ⟨[gstr "src/**/*.go"], []⟩ (gstr "Write")
      ⟨[], [], [], [], [gstr "src/main.go"], []⟩).allowed = true := by decide
example :
    (scopeEval ⟨[gstr "src/**"], []⟩ (gstr "Read")
      ⟨[], [], [], [], [gstr "/etc/passwd"], []⟩).allowed = true := by decide

/-! ## `policy` versioning rule (rule_versioning.go) -/

/-- `config.CommitConfig`. -/
structure CommitCfg where
  maxLength : Int := 0
  maxFiles : Int := 0
  requireUppercase : Bool := false
  noPeriod : Bool := false
  requirePeriod : Bool := false
  singleLine : Bool := false
  forbidColons : Bool := false
  conventional : Bool := false
  prefixPat : GoStr := []
deriving DecidableEq

/-- `config.BranchesConfig`. -/
structure BranchesCfg where
  protectedBranches : List GoStr := []
deriving DecidableEq

/-- `config.OperationsConfig`. -/
structure OperationsCfg where
  block : List GoStr := []
deriving DecidableEq

/-- `config.VersioningConfig` / `policy.VersioningRule`. -/
structure VersioningCfg where
  commit : CommitCfg := {}
  branches : BranchesCfg := {}
  operations : OperationsCfg := {}
  workflow : GoStr := []
  tool : GoStr := []
deriving DecidableEq

/-- `policy.isGitCommand`. -/
def isGitCommand (cmd : GoStr) : Bool :=
  goContainsSub cmd (gstr "git ") || goContainsSub cmd (gstr "jj ")

/-- `policy.isCommitCommand`. -/
def isCommitCommand (cmd : GoStr) : Bool :=
  goContainsSub cmd (gstr "git commit") || goContainsSub cmd (gstr "jj commit")

/-- `policy.extractBranchFromCommand`: the first field after `" -b "`. -/
def extractBranchFromCommand (cmd : GoStr) : GoStr :=
  if goContainsSub cmd (gstr " -b ") then
    match splitOnSub cmd (gstr " -b ") with
    | _ :: p1 :: _ =>
      match goFields p1 with
      | f :: _ => f
      | [] => []
    | _ => []
  else []

/-- `VersioningRule.isProtectedBranch`. -/
def isProtectedBranch (r : VersioningCfg) (branch : GoStr) : Bool :=
  r.branches.protectedBranches.contains branch

/-- `policy.findClosingQuote`: index of the closing quote, skipping
backslash-escaped characters. -/
def fcqAux : GoStr → Char → Bool → Nat → Option Nat
  | [], _, _, _ => none
  | c :: rest, q, esc, i =>
    if esc then fcqAux rest q false (i + 1)
    else if c = bsl then fcqAux rest q true (i + 1)
    else if c = q then some i
    else fcqAux rest q false (i + 1)

/-- `policy.findClosingQuote` entry point. -/
def findClosingQuote (s : GoStr) (q : Char) : Option Nat := fcqAux s q false 0

/-- `strings.IndexAny` with a two-character set. -/
def goIndexAny (s : GoStr) (set : List Char) : Option Nat := s.findIdx? (set.contains ·)

/-- `policy.extractHeredocFromCat`: the body of a `"$(cat <<DELIM ...
DELIM)"` expression. -/
def extractHeredocFromCat (s : GoStr) : GoStr :=
  match goIndexSub s (gstr "<<") with
  | none => []
  | some start =>
    let rest0 := s.drop (start + 2)
    let rest1 := if goHasPre rest0 [sqc] then rest0.drop 1 else rest0
    match goIndexAny rest1 [sqc, nl] with
    | none => []
    | some delimEnd =>
      let delim := rest1.take delimEnd
      let rest2 := rest1.drop (delimEnd + 1)
      match goIndexSub rest2 delim with
      | some endIdx => if endIdx > 0 then goTrimSpace (rest2.take endIdx) else []
      | none => []

/-- `policy.extractHeredocMessage`: the body of a bare `<<DELIM ... DELIM`
heredoc. -/
def extractHeredocMessage (cmd : GoStr) : GoStr :=
  match goIndexSub cmd (gstr "<<") with
  | none => []
  | some idx =>
    let rest0 := goTrimSpace (cmd.drop (idx + 2))
    let dr : GoStr × GoStr :=
      if goHasPre rest0 [sqc] then
        match goIndexSub (rest0.drop 1) [sqc] with
        | some e =>
          if e > 0 then ((rest0.drop 1).take e, rest0.drop (e + 2)) else ([], rest0)
        | none => ([], rest0)
      else
        match goFields rest0 with
        | f :: _ => (f, goTrimPre rest0 f)
        | [] => ([], rest0)
    if dr.1 = [] then []
    else
      let rest := goTrimSpace dr.2
      match goIndexSub rest dr.1 with
      | some endIdx => if endIdx > 0 then goTrimSpace (rest.take endIdx) else []
      | none => []

/-- `policy.extractQuotedOrWord`: a double- or single-quoted string (with
backslash escapes), a `"$(cat <<...)"` heredoc, or the first field. -/
def extractQuotedOrWord (s0 : GoStr) : GoStr :=
  let s := goTrimSpace s0
  if s = [] then []
  else
    let dq : Option GoStr :=
      if s.head? = some '"' then
        match findClosingQuote (s.drop 1) '"' with
        | some e => if e > 0 then some ((s.drop 1).take e) else none
        | none => none
      else none
    match dq with
    | some m => m
    | none =>
      let sq1 : Option GoStr :=
        if s.head? = some sqc then
          match findClosingQuote (s.drop 1) sqc with
          | some e => if e > 0 then some ((s.drop 1).take e) else none
          | none => none
        else none
      match sq1 with
      | some m => m
      | none =>
        if goHasPre s (gstr "\"$(cat <<") then extractHeredocFromCat s
        else
          match goFields s with
          | f :: _ => f
          | [] => []

/-- `policy.extractCommitMessage`: try ` -m `, ` --message `, ` --message=`,
` -m=` in order at their first occurrence; otherwise a bare heredoc. -/
def extractCommitMessage (cmd : GoStr) : GoStr :=
  let pats := [gstr " -m ", gstr " --message ", gstr " --message=", gstr " -m="]
  let rec tryPats : List GoStr → GoStr
    | [] =>
      if goContainsSub cmd (gstr "<<") then extractHeredocMessage cmd else []
    | p :: ps =>
      match goIndexSub cmd p with
      | some idx => extractQuotedOrWord (cmd.drop (idx + p.length))
      | none => tryPats ps
  tryPats pats

/-- `unicode.IsUpper` restricted to ASCII (the commit messages checked in
this development are ASCII; Go reads the first byte of the message). -/
def goIsUpper (c : Char) : Bool := 'A' ≤ c && c ≤ 'Z'

/-- `unicode.IsLetter` restricted to ASCII. -/
def goIsLetter (c : Char) : Bool := ('A' ≤ c && c ≤ 'Z') || ('a' ≤ c && c ≤ 'z')

/-- `VersioningRule.EvaluateCommit`.  `rx` models `regexp.Compile` applied
to the anchored pattern: `none` is a compilation error (in which case the
Go code skips the check), `some f` the compiled matcher. -/
def evaluateCommit (rx : GoStr → Option (GoStr → Bool)) (r : VersioningCfg)
    (command : GoStr) : Decision :=
  if !isCommitCommand command then { allowed := true }
  else if r.tool = gstr "jj" && goContainsSub command (gstr "git commit") then
    { allowed := false,
      reason := gstr "prefer jj over git: use 'jj commit' instead of 'git commit'" }
  else
    let branch := extractBranchFromCommand command
    if isProtectedBranch r branch then
      { allowed := false,
        reason := gstr "cannot commit directly to protected branch: " ++ branch }
    else
      let message := extractCommitMessage command
      if message = [] then { allowed := true }
      else if r.commit.maxLength > 0 && (message.length : Int) > r.commit.maxLength then
        { allowed := false,
          reason := gstr "commit message exceeds max length of " ++ itoa r.commit.maxLength }
      else if r.commit.requireUppercase && message ≠ [] &&
          (match message.head? with
           | some first => !goIsUpper first && goIsLetter first
           | none => false) then
        { allowed := false, reason := gstr "commit message must start with uppercase letter" }
      else if r.commit.noPeriod && goHasSuf message (gstr ".") then
        { allowed := false, reason := gstr "commit message must not end with period" }
      else if r.commit.requirePeriod && !goHasSuf message (gstr ".") then
        { allowed := false, reason := gstr "commit message must end with period" }
      else if r.commit.singleLine && goContainsChar message nl then
        { allowed := false, reason := gstr "commit message must be single line (no body)" }
      else if r.commit.forbidColons && goContainsChar message ':' then
        { allowed := false,
          reason := gstr "commit message must not contain colons (no conventional commit prefixes)" }
      else if r.commit.prefixPat ≠ [] then
        match rx ('^' :: r.commit.prefixPat) with
        | some f =>
          if !f message then
            { allowed := false,
              reason := gstr "commit message must match prefix pattern: " ++ r.commit.prefixPat }
          else { allowed := true }
        | none => { allowed := true }
      else { allowed := true }

/-- `VersioningRule.violatesWorkflow`: returns the violation reason
(or `""`). -/
def violatesWorkflow (r : VersioningCfg) (cmd : GoStr) : GoStr :=
  if r.workflow = gstr "linear" then
    if goContainsSub cmd (gstr "git merge") || goContainsSub cmd (gstr "jj merge") then
      gstr "workflow is linear: use rebase instead of merge"
    else []
  else if r.workflow = gstr "merge" then
    if goContainsSub cmd (gstr "git rebase") || goContainsSub cmd (gstr "jj rebase") then
      gstr "workflow is merge-based: use merge instead of rebase"
    else []
  else []

/-- `VersioningRule.isBlockedOperation`: the first blocked operation that
occurs as a substring of the command (or `""`). -/
def isBlockedOperation (r : VersioningCfg) (cmd : GoStr) : GoStr :=
  match r.operations.block.find? (fun op => goContainsSub cmd op) with
  | some op => op
  | none => []

/-- `VersioningRule.Evaluate`. -/
def versioningEval (rx : GoStr → Option (GoStr → Bool)) (r : VersioningCfg)
    (command : GoStr) : Decision :=
  if !isGitCommand command then { allowed := true }
  else if isBlockedOperation r command ≠ [] then
    { allowed := false,
      reason := gstr "operation blocked by configuration: " ++ isBlockedOperation r command }
  else if violatesWorkflow r command ≠ [] then
    { allowed := false, reason := violatesWorkflow r command }
  else if isCommitCommand command then evaluateCommit rx r command
  else { allowed := true }

/-! ## `policy` incremental rule (rule_incremental.go) -/

/-- `config.IncrementalConfig` / `policy.IncrementalRule` (the injected
counter is passed separately).  `warnRatio` models the `float64` field with
exact rational arithmetic. -/
structure IncrementalCfg where
  maxFiles : Int := 0
  warnRatio : ℚ := 0
deriving DecidableEq

/-- Bit length of a natural number, with fuel (structural, so the kernel
can evaluate it). -/
def blAux : Nat → Nat → Nat
  | 0, _ => 0
  | f + 1, n => if n = 0 then 0 else blAux f (n / 2) + 1

/-- Bit length of a natural number. -/
def bitLen (n : Nat) : Nat := blAux 4400 n

/-- a/b < 2^d, decided in integer arithmetic. -/
def ratLtPow2 (a b : Nat) (d : Int) : Prop :=
  if 0 ≤ d then a < 2 ^ d.toNat * b else a * 2 ^ (-d).toNat < b

instance (a b : Nat) (d : Int) : Decidable (ratLtPow2 a b d) := by
  unfold ratLtPow2
  split <;> infer_instance

/-- IEEE-754 binary64 rounding of the positive rational `a/b`: round to 53
significant bits, nearest, ties to even.  The result is the pair `(m, t)`
denoting the value `m / 2^t` (`t` may be negative).  Subnormal results keep
full precision here; `warnThreshold` flushes to the default separately and
the extra low bits of a subnormal product cannot affect a truncation to
`int` (any such product is below 1). -/
def frnd (a b : Nat) : Nat × Int :=
  if a = 0 then (0, 0)
  else
    let d : Int := (bitLen a : Int) - (bitLen b : Int)
    let z : Int := if ratLtPow2 a b d then d - 1 else d
    let t : Int := 52 - z
    let nd : Nat × Nat := if 0 ≤ t then (a * 2 ^ t.toNat, b) else (a, b * 2 ^ (-t).toNat)
    let m0 := nd.1 / nd.2
    let r := nd.1 % nd.2
    let m := if 2 * r > nd.2 ∨ (2 * r = nd.2 ∧ m0 % 2 = 1) then m0 + 1 else m0
    (m, t)

/-- The rounded value `m / 2^t` is at least 1. -/
def geOne (f : Nat × Int) : Prop := if 0 ≤ f.2 then 2 ^ f.2.toNat ≤ f.1 else f.1 ≠ 0

instance (f : Nat × Int) : Decidable (geOne f) := by
  unfold geOne
  split <;> infer_instance

/-- IEEE-754 binary64 multiplication of the (positive) rounded values: the
exact product, correctly re-rounded. -/
def fmul (x y : Nat × Int) : Nat × Int :=
  let T := x.2 + y.2
  if 0 ≤ T then frnd (x.1 * y.1) (2 ^ T.toNat) else frnd (x.1 * y.1 * 2 ^ (-T).toNat) 1

/-- Truncation toward zero of the nonnegative value `m / 2^t`, Go's
`int(...)` conversion. -/
def ftrunc (f : Nat × Int) : Nat :=
  if 0 ≤ f.2 then f.1 / 2 ^ f.2.toNat else f.1 * 2 ^ (-f.2).toNat

/-- `IncrementalRule.warnThreshold`: Go computes
`int(float64(maxFiles) * ratio)` in IEEE-754 binary64 — the stored `ratio`
is the binary64 nearest to the configured decimal, the conversion
`float64(maxFiles)` and the product round to nearest (ties to even), and
`int(...)` truncates toward zero — with the ratio replaced by the binary64
constant `0.7` (mantissa `6305039478318694`, exponent `-53`) when the
stored float is `≤ 0` (including a positive decimal that flushes to zero,
`ratio ≤ 2^-1075`) or `≥ 1` (including a decimal below 1 that rounds up to
it). -/
def warnThreshold (maxFiles : Int) (ratio : ℚ) : Int :=
  let c : Nat × Int :=
    if ratio.num ≤ 0 ∨ ratio.num.natAbs * 2 ^ 1075 ≤ ratio.den
        ∨ geOne (frnd ratio.num.natAbs ratio.den) then
      (6305039478318694, 53)
    else frnd ratio.num.natAbs ratio.den
  let t : Nat := ftrunc (fmul (frnd maxFiles.natAbs 1) c)
  if maxFiles < 0 then -(t : Int) else (t : Int)

/-- `IncrementalRule.Evaluate`, with the result of the injected
changed-file counter passed as `count` (negative means the count could not
be determined). -/
def incrementalEval (r : IncrementalCfg) (count : Int) : Decision :=
  if r.maxFiles ≤ 0 then { allowed := true }
  else if count < 0 then { allowed := true }
  else if count ≥ r.maxFiles then
    { allowed := false,
      reason := gstr "maximum modified files reached (" ++ itoa count ++ gstr "/"
        ++ itoa r.maxFiles ++ gstr "), commit or review changes before continuing" }
  else if count ≥ warnThreshold r.maxFiles r.warnRatio then
    { allowed := true,
      warning := gstr "approaching file limit: " ++ itoa count ++ gstr "/"
        ++ itoa r.maxFiles ++ gstr " files modified, consider committing soon" }
  else { allowed := true }

/-- `regexp.Compile` model that always fails; adequate when
`prefix_pattern` is empty. -/
def rxNone : GoStr → Option (GoStr → Bool) := fun _ => none

example : extractCommitMessage (gstr "git commit -m \"lowercase\"") = gstr "lowercase" := by decide
example : extractCommitMessage (gstr "git commit -m Fix") = gstr "Fix" := by decide
example :
    (versioningEval rxNone { commit := { requireUppercase := true } }
      (gstr "git commit -m \"lowercase\"")).allowed = false := by decide
example :
    (versioningEval rxNone { commit := { requireUppercase := true } }
      (gstr "git commit -m \"Uppercase\"")).allowed = true := by decide
example :
    (versioningEval rxNone { commit := { requireUppercase := true } }
      (gstr "git status")).allowed = true := by decide
example :
    (versioningEval rxNone { operations := { block := [gstr "push --force"] } }
      (gstr "git push --force origin main")).allowed = false := by decide
example : warnThreshold 10 0 = 7 := by decide
example : warnThreshold 10 (mkRat 7 10) = 7 := by decide
example : warnThreshold 10 (mkRat 8 10) = 8 := by decide
example : warnThreshold 20 (mkRat 1 2) = 10 := by decide
example : warnThreshold 10 (mkRat 15 10) = 7 := by decide
example : warnThreshold 10 (mkRat (-1) 2) = 7 := by decide
example : warnThreshold 90 (mkRat 7 10) = 62 := by decide
example : warnThreshold 90 0 = 62 := by decide
example : warnThreshold 100 (mkRat 7 10) = 70 := by decide
example : warnThreshold 330 (mkRat 7 10) = 230 := by decide
example : warnThreshold 90 (mkRat 3 10) = 27 := by decide
example : frnd 7 10 = (6305039478318694, 53) := by decide
example : (incrementalEval { maxFiles := 10, warnRatio := mkRat 7 10 } (-1)).allowed = true := by decide
example : (incrementalEval { maxFiles := 10, warnRatio := mkRat 7 10 } 10).allowed = false := by decide
example :
    (incrementalEval { maxFiles := 10, warnRatio := mkRat 7 10 } 7).warning ≠ [] := by decide
example :
    (incrementalEval { maxFiles := 10, warnRatio := mkRat 7 10 } 3).warning = [] := by decide

example : extractCommitMessage (gstr "git commit -m \"Add feature\"") = gstr "Add feature" := by
  decide
example :
    extractCommitMessage (gstr "git commit -m " ++ [sqc] ++ gstr "Fix bug" ++ [sqc])
      = gstr "Fix bug" := by decide
example :
    extractCommitMessage (gstr "git commit --message \"Update docs\"") = gstr "Update docs" := by
  decide
example :
    extractCommitMessage (gstr "git commit --message=\"Refactor code\"")
      = gstr "Refactor code" := by decide
example : extractCommitMessage (gstr "git commit") = gstr "" := by decide
example : extractCommitMessage (gstr "jj commit -m \"JJ commit\"") = gstr "JJ commit" := by decide
example : itoa 42 = gstr "42" := by decide
example : itoa 0 = gstr "0" := by decide
example : itoa 100 = gstr "100" := by decide
example :
    (evaluateCommit rxNone { tool := gstr "jj" }
      (gstr "git commit -m \"Test\"")).allowed = false := by decide
example :
    (evaluateCommit rxNone { branches := { protectedBranches := [gstr "main"] } }
      (gstr "git commit -b main -m \"Test\"")).allowed = false := by decide

/-! ## `internal/config` -/

/-- `config.RulesConfig`. -/
structure RulesCfg where
  workspace : Bool := false
  scope : Bool := false
  versioning : Bool := false
  incremental : Bool := false
  invariants : Bool := false
  patterns : Bool := false
  boundaries : Bool := false
deriving DecidableEq

/-- `config.WorkspaceConfig`. -/
structure WorkspaceCfg where
  allow : List GoStr := []
  block : List GoStr := []
deriving DecidableEq

/-- `config.ScopeConfig`. -/
structure ScopeCfg where
  allow : List GoStr := []
  block : List GoStr := []
deriving DecidableEq

/-- `config.CommandsConfig`. -/
structure CommandsCfg where
  block : List GoStr := []
deriving DecidableEq

/-- `config.ToolsConfig`. -/
structure ToolsCfg where
  allow : List GoStr := []
  block : List GoStr := []
deriving DecidableEq

/-- `config.HookConfig` (the `timeout` duration is in nanoseconds as in
Go). -/
structure HookCfg where
  name : GoStr
  command : GoStr := []
  args : List GoStr := []
  tools : List GoStr := []
  pathPats : List GoStr := []
  timeout : Int := 0
  onError : GoStr := []
deriving DecidableEq

/-- `config.CoexistenceCheck` (`If` renamed, a Lean keyword). -/
structure CoexistenceCheck where
  name : GoStr
  ifGlob : GoStr := []
  requireTpl : GoStr := []
  message : GoStr := []
deriving DecidableEq

/-- `config.ContentCheck`. -/
structure ContentCheck where
  name : GoStr
  paths : List GoStr := []
  requireRx : GoStr := []
  forbidRx : GoStr := []
  message : GoStr := []
deriving DecidableEq

/-- `config.ImportCheck`. -/
structure ImportCheck where
  name : GoStr
  paths : List GoStr := []
  forbidRx : GoStr := []
  message : GoStr := []
deriving DecidableEq

/-- `config.NamingCheck`. -/
structure NamingCheck where
  name : GoStr
  paths : List GoStr := []
  pattern : GoStr := []
  message : GoStr := []
deriving DecidableEq

/-- `config.RequiredCheck`. -/
structure RequiredCheck where
  name : GoStr
  dirs : GoStr := []
  whenGlob : GoStr := []
  requireFile : GoStr := []
  message : GoStr := []
deriving DecidableEq

/-- `config.InvariantsConfig`. -/
structure InvariantsCfg where
  coexistence : List CoexistenceCheck := []
  content : List ContentCheck := []
  imports : List ImportCheck := []
  naming : List NamingCheck := []
  required : List RequiredCheck := []
deriving DecidableEq

/-- `config.Config`. -/
structure WConfig where
  version : Int := 0
  rules : RulesCfg := {}
  workspace : WorkspaceCfg := {}
  scope : ScopeCfg := {}
  versioning : VersioningCfg := {}
  incremental : IncrementalCfg := {}
  invariants : InvariantsCfg := {}
  commands : CommandsCfg := {}
  tools : ToolsCfg := {}
  hooks : List HookCfg := []
deriving DecidableEq

/-- `config.appendUnique`: append the items not already present (the Go
seen-set holds the base entries and every appended item). -/
def appendUnique (base items : List GoStr) : List GoStr :=
  items.foldl (fun acc s => if acc.contains s then acc else acc ++ [s]) base

/-- The shared shape of `config.appendCoexistenceUnique`,
`appendContentUnique`, `appendImportsUnique`, `appendNamingUnique`,
`appendRequiredUnique` and `appendHooksUnique`: dedup by the `Name`
field. -/
def appendUniqueBy {α : Type} (nameOf : α → GoStr) (base items : List α) : List α :=
  items.foldl (fun acc s => if acc.any (fun e => nameOf e = nameOf s) then acc else acc ++ [s]) base

/-- `config.mergeInvariants`. -/
def mergeInvariants (base overlay : InvariantsCfg) : InvariantsCfg :=
  { coexistence := appendUniqueBy (·.name) base.coexistence overlay.coexistence
    content := appendUniqueBy (·.name) base.content overlay.content
    imports := appendUniqueBy (·.name) base.imports overlay.imports
    naming := appendUniqueBy (·.name) base.naming overlay.naming
    required := appendUniqueBy (·.name) base.required overlay.required }

/-- `config.Config.merge`: the overlay's `Rules`, `Versioning` and
`Incremental` structs are assigned wholesale; list fields are appended with
dedup.  The Go code overwrites `c.Versioning` before re-reading
`c.Versioning.Branches.Protected`, so the appended protected-branch list is
the overlay's list appended (deduplicated) onto itself, and the base's
protected branches are lost. -/
def mergeCfg (c overlay : WConfig) : WConfig :=
  { version := if overlay.version > 0 then overlay.version else c.version
    rules := overlay.rules
    workspace := ⟨appendUnique c.workspace.allow overlay.workspace.allow,
                  appendUnique c.workspace.block overlay.workspace.block⟩
    scope := ⟨appendUnique c.scope.allow overlay.scope.allow,
              appendUnique c.scope.block overlay.scope.block⟩
    versioning := { overlay.versioning with
      branches := ⟨appendUnique overlay.versioning.branches.protectedBranches
                     overlay.versioning.branches.protectedBranches⟩ }
    incremental := overlay.incremental
    invariants := mergeInvariants c.invariants overlay.invariants
    commands := ⟨appendUnique c.commands.block overlay.commands.block⟩
    tools := ⟨appendUnique c.tools.allow overlay.tools.allow,
              appendUnique c.tools.block overlay.tools.block⟩
    hooks := appendUniqueBy (·.name) c.hooks overlay.hooks }

/-- `config.Default`: version 1, only the workspace rule enabled. -/
def defaultCfg : WConfig :=
  { version := 1, rules := { workspace := true } }

/-- `config.Load` in a project whose root contains a `.watchman.yml`:
the local file is used exclusively (the global file is not read), loaded
with `loadFrom` onto `Default()`, i.e. merged as an overlay.  The YAML
layer is out of scope; `overlay` stands for the decoded file, in which
every omitted field holds its Go zero value. -/
def loadWithLocal (overlay : WConfig) : WConfig := mergeCfg defaultCfg overlay

example : defaultCfg.rules.workspace = true := by decide
example : defaultCfg.rules.scope = false := by decide
example : (loadWithLocal { rules := { workspace := false } }).rules.workspace = false := by decide
example :
    (mergeCfg { workspace := ⟨[gstr "/tmp"], [gstr ".env"]⟩ }
      { workspace := ⟨[gstr "/var"], [gstr "secrets/"]⟩ }).workspace.allow
      = [gstr "/tmp", gstr "/var"] := by decide
example : appendUnique [gstr "a", gstr "b"] [gstr "b", gstr "c"]
    = [gstr "a", gstr "b", gstr "c"] := by decide

/-! ## `internal/hook`: the evaluator -/

/-- `hook.Result` (and the result shape of external hook execution). -/
structure HookResult where
  allowed : Bool
  reason : GoStr := []
  warning : GoStr := []
deriving DecidableEq

/-- The `tool_input` fields recognized by the engine (`.(string)` type
assertions on absent or non-string values yield `none`). -/
structure ToolInput where
  command : Option GoStr := none
  filePath : Option GoStr := none
  path : Option GoStr := none
  pattern : Option GoStr := none
  content : Option GoStr := none
deriving DecidableEq

/-- `hook.Input`. -/
structure HookInputW where
  toolName : GoStr
  toolInput : ToolInput
deriving DecidableEq

/-- The external collaborators of one evaluation: home directory and
working directory lookups, the injected changed-file counter, the regexp
compiler, the external hook executor (by hook index in configuration
order), and the reminder subsystem (a newer config revision than the one in
the sources carries a `Reminders` list; `reminders`/`triggered` stand for
that list and for `state.CheckReminders`' output). -/
structure Env where
  home : Option GoStr := none
  cwd : Option GoStr := none
  gitCount : Int := -1
  rx : GoStr → Option (GoStr → Bool) := rxNone
  execHook : Nat → HookResult := fun _ => { allowed := true }
  invDecide : GoStr → GoStr → GoStr → Decision := fun _ _ _ => { allowed := true }
  reminders : List GoStr := []
  triggered : List GoStr := []

/-- Modelled from the spec: `hook.ExtractPaths` is called by evaluator.go
but its defining file is not among the sources.  Per §4.2: Bash yields the
parsed args, non-empty flag values and env values; Read, Write, Edit and
NotebookEdit yield `file_path` when present; Glob yields `path` and
`pattern`; Grep yields `path`; other tools yield nothing; empty strings
are discarded. -/
def ExtractPaths (toolName : GoStr) (ti : ToolInput) : List GoStr :=
  let raw : List GoStr :=
    if toolName = gstr "Bash" then
      match ti.command with
      | some c =>
        let cmd := wParse c
        cmd.args ++ (cmd.flags.map (·.2)).filter (· ≠ []) ++ cmd.env.map (·.2)
      | none => []
    else if toolName = gstr "Read" ∨ toolName = gstr "Write" ∨ toolName = gstr "Edit"
        ∨ toolName = gstr "NotebookEdit" then
      match ti.filePath with
      | some fp => [fp]
      | none => []
    else if toolName = gstr "Glob" then
      (match ti.path with | some p => [p] | none => []) ++
      (match ti.pattern with | some p => [p] | none => [])
    else if toolName = gstr "Grep" then
      match ti.path with
      | some p => [p]
      | none => []
    else []
  raw.filter (· ≠ [])

/-- `hook.filesystemTools`. -/
def filesystemToolsList : List GoStr :=
  [gstr "Bash", gstr "Read", gstr "Write", gstr "Edit", gstr "Glob", gstr "Grep"]

/-- `hook.isFilesystemTool`. -/
def isFilesystemToolE (tool : GoStr) : Bool := filesystemToolsList.contains tool

/-- `hook.isModificationTool`. -/
def isModificationToolE (tool : GoStr) : Bool :=
  [gstr "Write", gstr "Edit", gstr "NotebookEdit"].contains tool

/-- `Evaluator.isToolBlocked` (case-insensitive). -/
def isToolBlockedE (cfg : WConfig) (tool : GoStr) : Bool :=
  cfg.tools.block.any (fun t => goEqualFold t tool)

/-- `Evaluator.isToolAllowed` (case-insensitive; an empty allow list allows
everything). -/
def isToolAllowedE (cfg : WConfig) (tool : GoStr) : Bool :=
  if cfg.tools.allow = [] then true
  else cfg.tools.allow.any (fun t => goEqualFold t tool)

/-- The per-path loop of `Evaluator.evaluateWorkspace`: each extracted path
is wrapped in a fresh `parser.Command{Args: []string{p}}` and checked by
the workspace rule. -/
def wsLoop (env : Env) (cfg : WConfig) : List GoStr → HookResult
  | [] => { allowed := true }
  | p :: rest =>
    let d := confineEval env.home env.cwd ⟨cfg.workspace.allow, cfg.workspace.block⟩
      ⟨[], [], [], [], [p], []⟩
    if !d.allowed then { allowed := false, reason := d.reason }
    else wsLoop env cfg rest

/-- `Evaluator.evaluateWorkspace`. -/
def evaluateWorkspaceE (env : Env) (cfg : WConfig) (input : HookInputW) : HookResult :=
  wsLoop env cfg (ExtractPaths input.toolName input.toolInput)

/-- The per-path loop of `Evaluator.evaluateScope`. -/
def scLoop (cfg : WConfig) (toolName : GoStr) : List GoStr → HookResult
  | [] => { allowed := true }
  | p :: rest =>
    let d := scopeEval ⟨cfg.scope.allow, cfg.scope.block⟩ toolName ⟨[], [], [], [], [p], []⟩
    if !d.allowed then { allowed := false, reason := d.reason }
    else scLoop cfg toolName rest

/-- `Evaluator.evaluateScope`. -/
def evaluateScopeE (cfg : WConfig) (input : HookInputW) : HookResult :=
  scLoop cfg input.toolName (ExtractPaths input.toolName input.toolInput)

/-- `Evaluator.evaluateVersioning`. -/
def evaluateVersioningE (env : Env) (cfg : WConfig) (input : HookInputW) : HookResult :=
  match input.toolInput.command with
  | none => { allowed := true }
  | some c =>
    let d := versioningEval env.rx cfg.versioning c
    { allowed := d.allowed, reason := d.reason }

/-- `Evaluator.evaluateIncremental`. -/
def evaluateIncrementalE (env : Env) (cfg : WConfig) : HookResult :=
  let d := incrementalEval cfg.incremental env.gitCount
  { allowed := d.allowed, reason := d.reason, warning := d.warning }

/-- The per-path loop of `Evaluator.evaluateInvariants`; the invariants
rule itself (rule_invariants.go, not among the sources — it checks file
existence and regexes against the filesystem) is the external collaborator
`env.invDecide`, modelled from the spec (§4.9). -/
def invLoop (env : Env) (toolName content : GoStr) : List GoStr → HookResult
  | [] => { allowed := true }
  | p :: rest =>
    let d := env.invDecide toolName p content
    if !d.allowed then { allowed := false, reason := d.reason }
    else invLoop env toolName content rest

/-- `Evaluator.evaluateInvariants`. -/
def evaluateInvariantsE (env : Env) (input : HookInputW) : HookResult :=
  let content := match input.toolInput.content with
    | some c => c
    | none => []
  invLoop env input.toolName content (ExtractPaths input.toolName input.toolInput)

/-- Modelled from the spec: `hook.HookMatcher.Matches` is called by
evaluator.go but its defining file is not among the sources.  Per §4.10:
the hook's tools must contain the tool name (case-sensitive), and when the
hook declares path filters at least one extracted path must match one of
them under the glob matcher. -/
def hookMatches (h : HookCfg) (toolName : GoStr) (paths : List GoStr) : Bool :=
  h.tools.contains toolName &&
  (h.pathPats = [] || paths.any (fun p => h.pathPats.any (fun pat => matchGlob p pat)))

/-- The hook loop of `Evaluator.evaluateHooks`: hooks run in configuration
order; the first denial wins (labelled with the hook name); warnings of
allowed hooks are collected and joined with `"; "`.  `i` is the index into
the configured hook list, used to address the executor. -/
def hooksLoop (env : Env) (toolName : GoStr) (paths : List GoStr) :
    List HookCfg → Nat → List GoStr → HookResult
  | [], _, warnings =>
    if warnings ≠ [] then { allowed := true, warning := joinWithSep warnings (gstr "; ") }
    else { allowed := true }
  | h :: rest, i, warnings =>
    if !hookMatches h toolName paths then hooksLoop env toolName paths rest (i + 1) warnings
    else
      let res := env.execHook i
      if !res.allowed then
        { allowed := false, reason := h.name ++ gstr ": " ++ res.reason }
      else if res.warning ≠ [] then
        hooksLoop env toolName paths rest (i + 1) (warnings ++ [h.name ++ gstr ": " ++ res.warning])
      else hooksLoop env toolName paths rest (i + 1) warnings

/-- `Evaluator.evaluateHooks`. -/
def evaluateHooksE (env : Env) (cfg : WConfig) (input : HookInputW) : HookResult :=
  hooksLoop env input.toolName (ExtractPaths input.toolName input.toolInput) cfg.hooks 0 []

/-- `Evaluator.evaluateReminders`, modelled from the spec (the state
manager is out of core scope): with no reminders configured it allows
silently; otherwise the triggered reminders are joined with `"; "` as a
warning. -/
def evaluateRemindersE (env : Env) : HookResult :=
  if env.reminders = [] then { allowed := true }
  else if env.triggered ≠ [] then
    { allowed := true, warning := joinWithSep env.triggered (gstr "; ") }
  else { allowed := true }

/-- `Evaluator.withReminders`: append triggered reminder warnings to an
allowed result. -/
def withRemindersE (env : Env) (r : HookResult) : HookResult :=
  if !r.allowed then r
  else
    let rr := evaluateRemindersE env
    if rr.warning ≠ [] then
      if r.warning ≠ [] then { r with warning := r.warning ++ gstr "; " ++ rr.warning }
      else { r with warning := rr.warning }
    else r

/-- `hook.Evaluator.Evaluate`: tool blocklist, tool allowlist, the
non-filesystem shortcut, the Bash command blocklist, the protected-path
oracle, then the enabled rules in order (workspace, scope, versioning,
incremental, invariants), the external hooks, and finally the reminders.
A denying rule returns immediately; an allowed-with-warning result from
the incremental rule or from the hooks returns immediately with reminders
appended. -/
def hookEvaluate (env : Env) (cfg : WConfig) (input : HookInputW) : HookResult :=
  if isToolBlockedE cfg input.toolName then
    { allowed := false, reason := gstr "tool is blocked by configuration: " ++ input.toolName }
  else if !isToolAllowedE cfg input.toolName then
    { allowed := false, reason := gstr "tool is not in allowed list: " ++ input.toolName }
  else if !isFilesystemToolE input.toolName then withRemindersE env { allowed := true }
  else
    let cmdBlocked : GoStr :=
      if input.toolName = gstr "Bash" then
        match input.toolInput.command with
        | some c => isCommandBlocked cfg.commands.block c
        | none => []
      else []
    if cmdBlocked ≠ [] then
      { allowed := false, reason := gstr "command is blocked by configuration: " ++ cmdBlocked }
    else
      let paths := ExtractPaths input.toolName input.toolInput
      if paths.any (fun p => IsAlwaysProtected env.home env.cwd p) then
        { allowed := false,
          reason := gstr "path is protected and cannot be accessed. User must perform this action manually." }
      else
        let ws := evaluateWorkspaceE env cfg input
        if cfg.rules.workspace && !ws.allowed then ws
        else
          let sc := evaluateScopeE cfg input
          if cfg.rules.scope && !sc.allowed then sc
          else
            let vs := evaluateVersioningE env cfg input
            if cfg.rules.versioning && input.toolName = gstr "Bash" && !vs.allowed then vs
            else
              let inc := evaluateIncrementalE env cfg
              if cfg.rules.incremental && isModificationToolE input.toolName && !inc.allowed then
                inc
              else if cfg.rules.incremental && isModificationToolE input.toolName
                  && inc.warning ≠ [] then
                withRemindersE env inc
              else
                let inv := evaluateInvariantsE env input
                if cfg.rules.invariants && isModificationToolE input.toolName && !inv.allowed then
                  inv
                else
                  let hk := evaluateHooksE env cfg input
                  if cfg.hooks ≠ [] && !hk.allowed then hk
                  else if cfg.hooks ≠ [] && hk.warning ≠ [] then withRemindersE env hk
                  else evaluateRemindersE env

/-! ## `cmd/watchman/main.go`: the path extractor -/

/-- `main.extractBashPaths`: args, non-empty flag values, and every env
value (empty or not). -/
def extractBashPathsMain (ti : ToolInput) : List GoStr :=
  match ti.command with
  | none => []
  | some c =>
    let cmd := wParse c
    cmd.args ++ (cmd.flags.map (·.2)).filter (· ≠ []) ++ cmd.env.map (·.2)

/-- `main.extractFilePath`: `file_path` whenever the key holds a string
(even the empty one). -/
def extractFilePathMain (ti : ToolInput) : List GoStr :=
  match ti.filePath with
  | some fp => [fp]
  | none => []

/-- `main.extractGlobPaths`. -/
def extractGlobPathsMain (ti : ToolInput) : List GoStr :=
  (match ti.path with | some p => [p] | none => []) ++
  (match ti.pattern with | some p => [p] | none => [])

/-- `main.extractGrepPaths`. -/
def extractGrepPathsMain (ti : ToolInput) : List GoStr :=
  match ti.path with
  | some p => [p]
  | none => []

/-- `main.extractPaths`: the per-tool dispatch (NotebookEdit is absent
here, unlike in the hook package's extractor). -/
def extractPathsMain (toolName : GoStr) (ti : ToolInput) : List GoStr :=
  if toolName = gstr "Bash" then extractBashPathsMain ti
  else if toolName = gstr "Read" ∨ toolName = gstr "Write" ∨ toolName = gstr "Edit" then
    extractFilePathMain ti
  else if toolName = gstr "Glob" then extractGlobPathsMain ti
  else if toolName = gstr "Grep" then extractGrepPathsMain ti
  else []

example :
    (hookEvaluate { home := some (gstr "/h"), cwd := some (gstr "/h/proj") } defaultCfg
      ⟨gstr "Read", { filePath := some (gstr "/etc/passwd") }⟩).allowed = false := by decide
example :
    (hookEvaluate { home := some (gstr "/h"), cwd := some (gstr "/h/proj") } defaultCfg
      ⟨gstr "Bash", { command := some (gstr "go test ./...") }⟩).allowed = true := by decide
example :
    (hookEvaluate { home := some (gstr "/h"), cwd := some (gstr "/h/proj") } defaultCfg
      ⟨gstr "Write", { filePath := some (gstr ".watchman.yml") }⟩).allowed = false := by decide
example :
    (hookEvaluate { home := some (gstr "/h"), cwd := some (gstr "/h/proj") }
      { tools := { block := [gstr "Bash"] } }
      ⟨gstr "Bash", {}⟩).allowed = false := by decide
example :
    (hookEvaluate { home := some (gstr "/h"), cwd := some (gstr "/h/proj") }
      { tools := { allow := [gstr "Read"] } }
      ⟨gstr "Write", {}⟩).allowed = false := by decide
example :
    (hookEvaluate {} {} ⟨gstr "WebSearch", {}⟩).allowed = true := by decide
example :
    (hookEvaluate { home := some (gstr "/h"), cwd := some (gstr "/h/proj") }
      { commands := { block := [gstr "sudo"] } }
      ⟨gstr "Bash", { command := some (gstr "sudo rm -rf /") }⟩).allowed = false := by decide
example :
    (hookEvaluate { home := some (gstr "/h"), cwd := some (gstr "/h/proj") }
      { rules := { scope := true }, scope := { allow := [gstr "src/**/*.go"] } }
      ⟨gstr "Write", { filePath := some (gstr "vendor/lib.go") }⟩).allowed = false := by decide
example :
    (hookEvaluate { home := some (gstr "/h"), cwd := some (gstr "/h/proj") }
      { rules := { versioning := true },
        versioning := { commit := { requireUppercase := true } } }
      ⟨gstr "Bash", { command := some (gstr "git commit -m \"lowercase\"") }⟩).allowed
      = false := by decide
example : extractPathsMain (gstr "Bash") { command := some (gstr "FOO= ls") } = [gstr ""] := by
  decide

/-! ## Claim theorems -/

/-- C10: loading a configuration file replaces the rules section wholesale:
`merge` assigns the overlay's `Rules` struct unconditionally, so after a
`Load` that found a local file every rule switch the file omits is false —
although `Default()` enables the workspace switch — and a `.watchman.yml`
that does not set `rules.workspace: true` silently disables workspace
confinement. -/
theorem merge_replaces_rules_wholesale :
    (∀ c overlay : WConfig, (mergeCfg c overlay).rules = overlay.rules) ∧
    defaultCfg.rules.workspace = true ∧
    (∀ overlay : WConfig, overlay.rules.workspace = false →
      (loadWithLocal overlay).rules.workspace = false) := by
  refine ⟨fun c overlay => rfl, rfl, fun overlay h => ?_⟩
  simpa [loadWithLocal, mergeCfg] using h

/-- C10 witness: a local file that sets only `rules.scope` (all omitted
switches decode to `false`) disables the workspace rule that `Default()`
had enabled. -/
theorem merge_replaces_rules_wholesale_witness :
    (loadWithLocal { rules := { scope := true } }).rules.workspace = false :=
  merge_replaces_rules_wholesale.2.2 { rules := { scope := true } } rfl

/-- The warning threshold of a nonnegative budget is nonnegative. -/
theorem warnThreshold_nonneg (m : ℤ) (hm : 0 ≤ m) (ratio : ℚ) :
    0 ≤ warnThreshold m ratio := by
  simp only [warnThreshold]
  rw [if_neg (not_lt.mpr hm)]
  exact Int.ofNat_nonneg _

/-- C7 counterexample: the program computes the warning threshold in IEEE
binary64, not with an exact floor.  At `max_files = 90` with the default
ratio `0.7` the float64 product is `62.99999999999999...`, so the
threshold is 62 where `⌊90 × 0.7⌋ = 63` — at count 62 the rule allows
with a warning where the claim says silent allow. -/
theorem warnThreshold_float_not_floor :
    warnThreshold 90 (mkRat 7 10) = 62 ∧
    warnThreshold 90 0 = 62 ∧
    ⌊(90 : ℚ) * mkRat 7 10⌋ = 63 ∧
    (incrementalEval ⟨90, mkRat 7 10⟩ 62).allowed = true ∧
    (incrementalEval ⟨90, mkRat 7 10⟩ 62).warning ≠ [] := by
  refine ⟨by decide, by decide, ?_, by decide, by decide⟩
  have h : (90 : ℚ) * mkRat 7 10 = ((63 : ℤ) : ℚ) := by
    rw [Rat.mkRat_eq_div]
    norm_num
  rw [h, Int.floor_intCast]

/-- C7 amended: with `max_files > 0` the incremental rule allows silently
on an unknown (negative) count, denies with the commit-or-review reason at
or above `max_files`, warns with the count/max report from the binary64
threshold `warnThreshold` (the ratio defaulting to the float constant
`0.7` when the stored float is `≤ 0` or `≥ 1`) up to `max_files`, and
allows silently below the threshold; with `max_files ≤ 0` it always
allows silently. -/
theorem incremental_rule_float_thresholds (maxFiles : ℤ) (ratio : ℚ) (count : ℤ) :
    (maxFiles ≤ 0 → incrementalEval ⟨maxFiles, ratio⟩ count = { allowed := true }) ∧
    (0 < maxFiles → count < 0 → incrementalEval ⟨maxFiles, ratio⟩ count = { allowed := true }) ∧
    (0 < maxFiles → maxFiles ≤ count →
      incrementalEval ⟨maxFiles, ratio⟩ count =
        { allowed := false,
          reason := gstr "maximum modified files reached (" ++ itoa count ++ gstr "/"
            ++ itoa maxFiles ++ gstr "), commit or review changes before continuing" }) ∧
    (0 < maxFiles → warnThreshold maxFiles ratio ≤ count → count < maxFiles →
      incrementalEval ⟨maxFiles, ratio⟩ count =
        { allowed := true,
          warning := gstr "approaching file limit: " ++ itoa count ++ gstr "/"
            ++ itoa maxFiles ++ gstr " files modified, consider committing soon" }) ∧
    (0 ≤ count → count < warnThreshold maxFiles ratio → count < maxFiles →
      incrementalEval ⟨maxFiles, ratio⟩ count = { allowed := true }) := by
  refine ⟨fun h0 => ?_, fun hpos hneg => ?_, fun hpos hge => ?_, fun hpos hwarn hlt => ?_,
    fun hnn hlt hltm => ?_⟩
  · simp only [incrementalEval]
    rw [if_pos h0]
  · simp only [incrementalEval]
    rw [if_neg (by omega), if_pos hneg]
  · simp only [incrementalEval]
    rw [if_neg (by omega), if_neg (by omega), if_pos (by omega)]
  · have hw0 : 0 ≤ warnThreshold maxFiles ratio := warnThreshold_nonneg maxFiles hpos.le ratio
    simp only [incrementalEval]
    rw [if_neg (by omega), if_neg (by omega), if_neg (by omega), if_pos (by omega)]
  · by_cases hpos : 0 < maxFiles
    · simp only [incrementalEval]
      rw [if_neg (by omega), if_neg (by omega), if_neg (by omega), if_neg (by omega)]
    · simp only [incrementalEval]
      rw [if_pos (by omega)]

/-- C7 amended witness: with `max_files = 10` and ratio `0.7` (whose
binary64 threshold is 7), an unknown count allows silently, a count at the
budget denies, and a count of 7 warns. -/
theorem incremental_rule_float_thresholds_witness :
    incrementalEval ⟨10, mkRat 7 10⟩ (-1) = { allowed := true } ∧
    (incrementalEval ⟨10, mkRat 7 10⟩ 10).allowed = false ∧
    (incrementalEval ⟨10, mkRat 7 10⟩ 7).warning ≠ [] := by
  have h := incremental_rule_float_thresholds 10 (mkRat 7 10) (-1)
  have h2 := incremental_rule_float_thresholds 10 (mkRat 7 10) 10
  have h3 := incremental_rule_float_thresholds 10 (mkRat 7 10) 7
  refine ⟨h.2.1 (by decide) (by decide), ?_, ?_⟩
  · rw [h2.2.2.1 (by decide) (by decide)]
  · rw [h3.2.2.2.1 (by decide) (by decide) (by decide)]
    decide

/-- A path-like token: begins with `.` or `/`, or contains a `/`. -/
def pathLike (t : GoStr) : Bool :=
  goHasPre t (gstr ".") || goHasPre t (gstr "/") || goContainsChar t '/'

/-- The parser tokenizer never produces an empty token: a token is emitted
only when characters have been accumulated. -/
theorem parTok_ne_nil (s : List Char) :
    ∀ inS inD esc cur, ∀ t ∈ parTok s inS inD esc cur, t ≠ [] := by
  induction s with
  | nil =>
    intro inS inD esc cur t ht
    simp only [parTok] at ht
    split at ht
    · rename_i h
      simp only [List.mem_singleton] at ht
      exact ht ▸ h
    · simp at ht
  | cons c rest ih =>
    intro inS inD esc cur t ht
    simp only [parTok] at ht
    split_ifs at ht
    all_goals
      first
        | exact ih _ _ _ _ t ht
        | (rcases List.mem_cons.mp ht with h | h
           · subst h
             assumption
           · exact ih _ _ _ _ t h)

/-- Every token of the parsed command's token stream is non-empty. -/
theorem tokenizeCmd_ne_nil (cmd : GoStr) : ∀ t ∈ tokenizeCmd cmd, t ≠ [] :=
  parTok_ne_nil cmd false false false []

/-- The env loop hands back a sub-collection of its input tokens. -/
theorem envLoop_rest_subset (ts : List GoStr) : ∀ t ∈ (envLoop ts).2, t ∈ ts := by
  induction ts with
  | nil => simp [envLoop]
  | cons a rest ih =>
    intro t ht
    simp only [envLoop] at ht
    split at ht
    · exact List.mem_cons_of_mem a (ih t ht)
    · exact ht

/-- Every parsed positional argument is one of the loop's input tokens. -/
theorem flagsLoop_args_subset (ts : List GoStr) : ∀ t ∈ (flagsLoop ts).2, t ∈ ts := by
  induction ts using flagsLoop.induct <;> simp_all [flagsLoop] <;> aesop

/-- The flags-and-args loop of `parser.Parse` keeps every path-like
non-flag token as a positional argument: such a token never satisfies the
implicit flag-value conditions, so it is not consumed as a value. -/
theorem flagsLoop_pathlike_in_args (ts : List GoStr) :
    ∀ t ∈ ts, pathLike t = true → goHasPre t (gstr "-") = false →
      t ∈ (flagsLoop ts).2 := by
  induction ts using flagsLoop.induct <;>
    simp_all [flagsLoop, pathLike] <;> aesop

/-- Tokens in the flags-and-args region are tokens of the tokenized
command. -/
theorem flagRegion_subset (raw : GoStr) :
    ∀ t ∈ flagRegion raw, t ∈ tokenizeCmd (goTrimSpace raw) := by
  intro t ht
  simp only [flagRegion, preStages] at ht
  by_cases hempty : goTrimSpace raw = []
  · simp [hempty] at ht
  · rw [if_neg hempty] at ht
    have hsub := envLoop_rest_subset (tokenizeCmd (goTrimSpace raw))
    rcases her : (envLoop (tokenizeCmd (goTrimSpace raw))).2 with _ | ⟨prog, rest2⟩
    · rw [her] at ht
      simp at ht
    · rw [her] at ht
      rw [her] at hsub
      rcases rest2 with _ | ⟨t1, r3⟩
      · simp at ht
      · simp only [] at ht
        split_ifs at ht
        · exact hsub t (by simp [ht])
        · exact hsub t (by simpa using Or.inr ht)

/-- No positional argument of a parsed command is the empty string. -/
theorem wParse_args_ne_nil (raw : GoStr) : ∀ t ∈ (wParse raw).args, t ≠ [] := by
  intro t ht
  have h0 : t ∈ (flagsLoop (flagRegion raw)).2 := ht
  have h1 : t ∈ flagRegion raw := flagsLoop_args_subset _ t h0
  exact tokenizeCmd_ne_nil _ t (flagRegion_subset raw t h1)

/-- C8 counterexample: the extractor does emit empty candidates — a Bash
environment assignment with an empty value contributes the empty string
(env values are appended unconditionally), and a present-but-empty
`file_path` becomes the singleton empty candidate. -/
theorem extract_paths_empty_candidate :
    gstr "" ∈ extractPathsMain (gstr "Bash") { command := some (gstr "FOO= ls") } ∧
    extractPathsMain (gstr "Read") { filePath := some (gstr "") } = [gstr ""] := by
  decide

/-- C8 amended: for Bash the candidate list is exactly the parsed args,
then the non-empty flag values, then every env value; the args and
flag-value parts contain no empty strings (env values may be empty). -/
theorem bash_extractor_candidates (ti : ToolInput) (c : GoStr) (h : ti.command = some c) :
    extractPathsMain (gstr "Bash") ti
      = (wParse c).args ++ ((wParse c).flags.map (·.2)).filter (· ≠ [])
        ++ (wParse c).env.map (·.2) ∧
    (∀ p ∈ (wParse c).args, p ≠ []) ∧
    (∀ p ∈ ((wParse c).flags.map (·.2)).filter (· ≠ []), p ≠ []) := by
  refine ⟨?_, wParse_args_ne_nil c, fun p hp => by simpa using (List.mem_filter.mp hp).2⟩
  simp [extractPathsMain, extractBashPathsMain, h]

/-- C8 amended witness: the Bash candidate decomposition at a concrete
command. -/
theorem bash_extractor_candidates_witness :
    extractPathsMain (gstr "Bash")
        { command := some (gstr "GOBIN=/tmp go test -coverprofile=cover.out ./pkg") }
      = (wParse (gstr "GOBIN=/tmp go test -coverprofile=cover.out ./pkg")).args
        ++ ((wParse (gstr "GOBIN=/tmp go test -coverprofile=cover.out ./pkg")).flags.map
              (·.2)).filter (· ≠ [])
        ++ (wParse (gstr "GOBIN=/tmp go test -coverprofile=cover.out ./pkg")).env.map (·.2) :=
  (bash_extractor_candidates
    { command := some (gstr "GOBIN=/tmp go test -coverprofile=cover.out ./pkg") }
    (gstr "GOBIN=/tmp go test -coverprofile=cover.out ./pkg") rfl).1

/-- C1: the protected oracle marks `~/.ssh/id_rsa` protected and leaves
`~/.sshkeys` unprotected, and that path is extracted for a NotebookEdit
invocation — yet the evaluator allows the call: `NotebookEdit` is missing
from `hook.filesystemTools`, so evaluation returns allow before the
protected-path check runs, against the documented guarantee that protected
paths are denied for every tool regardless of configuration. -/
theorem notebookedit_bypasses_protected_oracle :
    IsAlwaysProtected (some (gstr "/home/u")) (some (gstr "/home/u/proj"))
      (gstr "/home/u/.ssh/id_rsa") = true ∧
    gstr "/home/u/.ssh/id_rsa"
      ∈ ExtractPaths (gstr "NotebookEdit") { filePath := some (gstr "/home/u/.ssh/id_rsa") } ∧
    hookEvaluate { home := some (gstr "/home/u"), cwd := some (gstr "/home/u/proj") }
      defaultCfg
      ⟨gstr "NotebookEdit", { filePath := some (gstr "/home/u/.ssh/id_rsa") }⟩
      = { allowed := true } ∧
    IsAlwaysProtected (some (gstr "/home/u")) (some (gstr "/home/u/proj"))
      (gstr "/home/u/.sshkeys") = false := by
  decide

/-! ## Normalisation lemmas for `goClean` (matcher idempotence) -/

/-- `splitOnChar` never returns the empty list. -/
theorem splitOnChar_ne_nil (s : GoStr) (c : Char) : splitOnChar s c ≠ [] := by
  cases s with
  | nil => simp [splitOnChar]
  | cons d t =>
    simp only [splitOnChar]
    split
    · simp
    · split <;> simp

/-- No field produced by `splitOnChar` contains the separator. -/
theorem splitOnChar_no_sep (s : GoStr) (c : Char) : ∀ x ∈ splitOnChar s c, c ∉ x := by
  induction s with
  | nil => simp [splitOnChar]
  | cons d t ih =>
    intro x hx
    simp only [splitOnChar] at hx
    split at hx
    · rename_i hdc
      rcases List.mem_cons.mp hx with rfl | hx
      · simp
      · exact ih x hx
    · rename_i hdc
      split at hx
      · rename_i hrest
        exact absurd hrest (splitOnChar_ne_nil t c)
      · rename_i r rs hrest
        rcases List.mem_cons.mp hx with rfl | hx
        · intro hmem
          rcases List.mem_cons.mp hmem with h | h
          · exact hdc h.symm
          · exact ih r (hrest ▸ List.mem_cons_self r rs) h
        · exact ih x (hrest ▸ List.mem_cons_of_mem r hx)

/-- A separator-free string splits into itself. -/
theorem splitOnChar_single (x : GoStr) (c : Char) (h : c ∉ x) : splitOnChar x c = [x] := by
  induction x with
  | nil => simp [splitOnChar]
  | cons d t ih =>
    have hdc : ¬d = c := fun hh => h (hh ▸ List.mem_cons_self d t)
    have ht := ih (fun hm => h (List.mem_cons_of_mem d hm))
    simp [splitOnChar, hdc, ht]

/-- Splitting after a separator-free block peels off that block. -/
theorem splitOnChar_append (x J : GoStr) (c : Char) (h : c ∉ x) :
    splitOnChar (x ++ c :: J) c = x :: splitOnChar J c := by
  induction x with
  | nil => simp [splitOnChar]
  | cons d t ih =>
    have hdc : ¬d = c := fun hh => h (hh ▸ List.mem_cons_self d t)
    have ht := ih (fun hm => h (List.mem_cons_of_mem d hm))
    simp only [List.cons_append, splitOnChar]
    rw [if_neg hdc]
    rw [show t.append (c :: J) = t ++ c :: J from rfl, ht]

/-- `splitOnChar` is a left inverse of `joinWithChar` on non-empty lists of
separator-free fields. -/
theorem splitOnChar_join (parts : List GoStr) (c : Char) (hne : parts ≠ [])
    (h : ∀ x ∈ parts, c ∉ x) : splitOnChar (joinWithChar parts c) c = parts := by
  induction parts with
  | nil => exact absurd rfl hne
  | cons x ps ih =>
    cases ps with
    | nil =>
      simp only [joinWithChar]
      exact splitOnChar_single x c (h x (List.mem_cons_self _ _))
    | cons y t =>
      simp only [joinWithChar]
      rw [splitOnChar_append x _ c (h x (List.mem_cons_self _ _))]
      rw [ih (by simp) (fun z hz => h z (List.mem_cons_of_mem x hz))]

/-- A normal cleaned component: non-empty, not a dot component, and
separator-free. -/
def normComp (x : GoStr) : Prop :=
  x ≠ [] ∧ x ≠ gstr "." ∧ x ≠ gstr ".." ∧ '/' ∉ x

/-- The invariant of the cleaning stack: normal components on top of a run
of `..` components, the latter absent for rooted paths. -/
def StackOk (rooted : Bool) (st : List GoStr) : Prop :=
  ∃ ns k, st = ns ++ List.replicate k (gstr "..") ∧ (rooted = true → k = 0) ∧
    ∀ x ∈ ns, normComp x

/-- A normal component is pushed unchanged. -/
theorem cleanStep_push (rooted : Bool) (st : List GoStr) (x : GoStr) (h : normComp x) :
    cleanStep rooted st x = x :: st := by
  obtain ⟨h1, h2, h3, _⟩ := h
  simp [cleanStep, h1, h2, h3]

/-- Pushing a list of normal components onto any stack reverses it on
top. -/
theorem foldl_cleanStep_push (rooted : Bool) (l : List GoStr) (st : List GoStr)
    (h : ∀ x ∈ l, normComp x) :
    List.foldl (cleanStep rooted) st l = l.reverse ++ st := by
  induction l generalizing st with
  | nil => simp
  | cons x t ih =>
    rw [List.foldl_cons, cleanStep_push rooted st x (h x (List.mem_cons_self _ _)),
      ih (x :: st) (fun z hz => h z (List.mem_cons_of_mem x hz))]
    simp

/-- Processing a run of `..` components from a `..`-only stack of a
non-rooted path keeps stacking them. -/
theorem foldl_cleanStep_dots (k i : Nat) :
    List.foldl (cleanStep false) (List.replicate i (gstr ".."))
      (List.replicate k (gstr "..")) = List.replicate (k + i) (gstr "..") := by
  induction k generalizing i with
  | zero => simp
  | succ k ih =>
    rw [List.replicate_succ, List.foldl_cons]
    have hstep : cleanStep false (List.replicate i (gstr "..")) (gstr "..")
        = List.replicate (i + 1) (gstr "..") := by
      cases i with
      | zero => simp [cleanStep, gstr]
      | succ j =>
        simp [cleanStep, List.replicate_succ]
        decide
    rw [hstep, ih (i + 1)]
    congr 1
    omega

/-- One cleaning step preserves the stack invariant (components come from
`splitOnChar`, hence are separator-free). -/
theorem cleanStep_ok (rooted : Bool) (st : List GoStr) (comp : GoStr)
    (hst : StackOk rooted st) (hc : '/' ∉ comp) :
    StackOk rooted (cleanStep rooted st comp) := by
  obtain ⟨ns, k, hs, hk, hns⟩ := hst
  by_cases h1 : comp = [] ∨ comp = gstr "."
  · simp only [cleanStep]
    rw [if_pos h1]
    exact ⟨ns, k, hs, hk, hns⟩
  · by_cases h2 : comp = gstr ".."
    · simp only [cleanStep]
      rw [if_neg h1, if_pos h2]
      cases hcase : st with
      | nil =>
        cases rooted with
        | true => exact ⟨[], 0, by simp, fun _ => rfl, by simp⟩
        | false => exact ⟨[], 1, by simp, by simp, by simp⟩
      | cons top rest =>
        dsimp only
        by_cases htop : top = gstr ".."
        · rw [if_pos htop]
          have hns0 : ns = [] := by
            cases hnscase : ns with
            | nil => rfl
            | cons a as =>
              exfalso
              rw [hnscase, hcase] at hs
              simp only [List.cons_append, List.cons.injEq] at hs
              have hna := hns a (hnscase ▸ List.mem_cons_self a as)
              exact hna.2.2.1 (hs.1 ▸ htop)
          have hk1 : 1 ≤ k := by
            by_contra hlt
            have hk0 : k = 0 := by omega
            rw [hns0, hk0] at hs
            simp [hcase] at hs
          have hrooted : rooted = false := by
            cases rooted with
            | false => rfl
            | true => exact absurd (hk rfl) (by omega)
          refine ⟨[], k + 1, ?_, by simp [hrooted], by simp⟩
          rw [h2, ← hcase, hs, hns0]
          simp [List.replicate_succ]
        · rw [if_neg htop]
          cases hnscase : ns with
          | nil =>
            exfalso
            rw [hnscase, hcase] at hs
            simp only [List.nil_append] at hs
            cases hkc : k with
            | zero => rw [hkc] at hs; simp at hs
            | succ j =>
              rw [hkc, List.replicate_succ] at hs
              exact htop (List.cons.injEq _ _ _ _ ▸ hs).1
          | cons a as =>
            rw [hnscase, hcase] at hs
            simp only [List.cons_append, List.cons.injEq] at hs
            exact ⟨as, k, hs.2, hk,
              fun z hz => hns z (hnscase ▸ List.mem_cons_of_mem a hz)⟩
    · simp only [cleanStep]
      rw [if_neg h1, if_neg h2]
      push_neg at h1
      exact ⟨comp :: ns, k, by rw [hs]; simp, hk,
        fun z hz => by
          rcases List.mem_cons.mp hz with rfl | hz
          · exact ⟨h1.1, h1.2, h2, hc⟩
          · exact hns z hz⟩

/-- The cleaning fold preserves the stack invariant from any starting
stack. -/
theorem foldl_cleanStep_ok_aux (rooted : Bool) (comps : List GoStr) :
    ∀ st, StackOk rooted st → (∀ x ∈ comps, '/' ∉ x) →
      StackOk rooted (List.foldl (cleanStep rooted) st comps) := by
  induction comps with
  | nil =>
    intro st hst _
    simpa using hst
  | cons x t ih =>
    intro st hst h
    rw [List.foldl_cons]
    exact ih _ (cleanStep_ok rooted st x hst (h x (List.mem_cons_self _ _)))
      (fun z hz => h z (List.mem_cons_of_mem x hz))

/-- The cleaning fold establishes the stack invariant. -/
theorem foldl_cleanStep_ok (rooted : Bool) (comps : List GoStr)
    (h : ∀ x ∈ comps, '/' ∉ x) :
    StackOk rooted (List.foldl (cleanStep rooted) [] comps) :=
  foldl_cleanStep_ok_aux rooted comps []
    ⟨[], 0, by simp, fun _ => rfl, by simp⟩ h

/-- Re-processing a cleaned component stack reproduces it. -/
theorem foldl_cleanStep_refold (rooted : Bool) (ns : List GoStr) (k : Nat)
    (hns : ∀ x ∈ ns, normComp x) (hk : rooted = true → k = 0) :
    List.foldl (cleanStep rooted) [] ((ns ++ List.replicate k (gstr "..")).reverse)
      = ns ++ List.replicate k (gstr "..") := by
  rw [List.reverse_append, List.reverse_replicate, List.foldl_append]
  have hdots : List.foldl (cleanStep rooted) [] (List.replicate k (gstr ".."))
      = List.replicate k (gstr "..") := by
    cases rooted with
    | true =>
      rw [hk rfl]
      simp
    | false => simpa using foldl_cleanStep_dots k 0
  rw [hdots, foldl_cleanStep_push rooted ns.reverse _ (by simpa using hns)]
  simp

/-- A join of non-empty fields over a non-empty list is non-empty. -/
theorem joinWithChar_ne_nil (parts : List GoStr) (c : Char) (hne : parts ≠ [])
    (h : ∀ x ∈ parts, x ≠ []) : joinWithChar parts c ≠ [] := by
  cases parts with
  | nil => exact absurd rfl hne
  | cons x ps =>
    cases ps with
    | nil => simpa [joinWithChar] using h x (by simp)
    | cons y t =>
      simp only [joinWithChar]
      intro hcontra
      rcases List.append_eq_nil.mp hcontra with ⟨-, h2⟩
      simp at h2

/-- The join of a list starting with a non-empty field starts with that
field's first character. -/
theorem joinWithChar_head (p : GoStr) (ps : List GoStr) (c : Char) (hp : p ≠ []) :
    (joinWithChar (p :: ps) c).head? = p.head? := by
  cases ps with
  | nil => simp [joinWithChar]
  | cons y t =>
    cases p with
    | nil => exact absurd rfl hp
    | cons a s => simp [joinWithChar]

/-- `goIsAbs` inspects only the first character. -/
theorem goIsAbs_iff_head (s : GoStr) : goIsAbs s = true ↔ s.head? = some '/' := by
  cases s with
  | nil => simp [goIsAbs, goHasPre, gstr, List.isPrefixOf]
  | cons a t =>
    simp [goIsAbs, goHasPre, gstr, List.isPrefixOf]
    exact eq_comm

/-- The rendering step of `goClean`: the cleaned stack joined with `/`,
with the root marker restored and empty results collapsing to `"."`
(or `"/"`). -/
def renderClean (rooted : Bool) (stack : List GoStr) : GoStr :=
  let body := joinWithChar stack.reverse '/'
  if rooted then '/' :: body else if body = [] then gstr "." else body

/-- `goClean` in terms of the stack fold and the renderer. -/
theorem goClean_eq_render (p : GoStr) (hp : p ≠ []) :
    goClean p
      = renderClean (goIsAbs p)
          (List.foldl (cleanStep (goIsAbs p)) [] (splitOnChar p '/')) := by
  simp only [goClean, renderClean]
  rw [if_neg hp]

/-- A rendered cleaned stack is a fixpoint of `goClean`. -/
theorem renderClean_fixpoint (rooted : Bool) (ns : List GoStr) (k : Nat)
    (hns : ∀ x ∈ ns, normComp x) (hk : rooted = true → k = 0) :
    goClean (renderClean rooted (ns ++ List.replicate k (gstr "..")))
      = renderClean rooted (ns ++ List.replicate k (gstr "..")) := by
  by_cases hstk : ns ++ List.replicate k (gstr "..") = []
  · rw [hstk]
    cases rooted with
    | true => decide
    | false => decide
  · have helems : ∀ x ∈ ns ++ List.replicate k (gstr ".."), x ≠ [] ∧ '/' ∉ x := by
      intro x hx
      rcases List.mem_append.mp hx with h | h
      · exact ⟨(hns x h).1, (hns x h).2.2.2⟩
      · rw [List.eq_of_mem_replicate h]
        exact ⟨by decide, by decide⟩
    have hrevne : (ns ++ List.replicate k (gstr "..")).reverse ≠ [] := fun hc =>
      hstk (List.reverse_eq_nil_iff.mp hc)
    have hbody : joinWithChar (ns ++ List.replicate k (gstr "..")).reverse '/' ≠ [] :=
      joinWithChar_ne_nil _ '/' hrevne
        (fun x hx => (helems x (List.mem_reverse.mp hx)).1)
    have hsplit : splitOnChar
        (joinWithChar (ns ++ List.replicate k (gstr "..")).reverse '/') '/'
        = (ns ++ List.replicate k (gstr "..")).reverse :=
      splitOnChar_join _ '/' hrevne
        (fun x hx => (helems x (List.mem_reverse.mp hx)).2)
    have hrefold := foldl_cleanStep_refold rooted ns k hns hk
    cases rooted with
    | true =>
      simp only [renderClean, if_pos]
      have habs : goIsAbs ('/' :: joinWithChar (ns ++ List.replicate k (gstr "..")).reverse '/')
          = true := by
        rw [goIsAbs_iff_head]
        rfl
      simp only [goClean]
      rw [if_neg (by simp), habs]
      have hsp : splitOnChar
          ('/' :: joinWithChar (ns ++ List.replicate k (gstr "..")).reverse '/') '/'
          = [] :: splitOnChar
              (joinWithChar (ns ++ List.replicate k (gstr "..")).reverse '/') '/' := by
        simp [splitOnChar]
      rw [hsp, hsplit, List.foldl_cons]
      have hstep0 : cleanStep true ([] : List GoStr) [] = [] := by
        simp [cleanStep]
      rw [hstep0, hrefold]
      simp
    | false =>
      simp only [renderClean, Bool.false_eq_true, if_false]
      rw [if_neg hbody]
      obtain ⟨q, qs, hrev⟩ :
          ∃ q qs, (ns ++ List.replicate k (gstr "..")).reverse = q :: qs := by
        cases hc : (ns ++ List.replicate k (gstr "..")).reverse with
        | nil => exact absurd hc hrevne
        | cons a b => exact ⟨a, b, rfl⟩
      have hq : q ≠ [] ∧ '/' ∉ q := by
        have : q ∈ (ns ++ List.replicate k (gstr "..")).reverse := by
          rw [hrev]
          exact List.mem_cons_self _ _
        exact helems q (List.mem_reverse.mp this)
      have hhead : (joinWithChar (ns ++ List.replicate k (gstr "..")).reverse '/').head?
          = q.head? := by
        rw [hrev]
        exact joinWithChar_head q qs '/' hq.1
      have habs : goIsAbs (joinWithChar (ns ++ List.replicate k (gstr "..")).reverse '/')
          = false := by
        rw [Bool.eq_false_iff]
        intro hcontra
        rw [goIsAbs_iff_head, hhead] at hcontra
        cases hqc : q with
        | nil => exact hq.1 hqc
        | cons c cs =>
          rw [hqc] at hcontra
          simp at hcontra
          exact hq.2 (by rw [hqc, hcontra]; exact List.mem_cons_self _ _)
      simp only [goClean]
      rw [if_neg hbody, habs]
      simp only [Bool.false_eq_true, if_false]
      rw [hsplit, hrefold]
      rw [if_neg hbody]

/-- `goClean` is idempotent. -/
theorem goClean_idem (p : GoStr) : goClean (goClean p) = goClean p := by
  by_cases hp : p = []
  · subst hp
    decide
  · obtain ⟨ns, k, hstack, hk, hns⟩ :=
      foldl_cleanStep_ok (goIsAbs p) (splitOnChar p '/') (splitOnChar_no_sep p '/')
    rw [goClean_eq_render p hp, hstack]
    exact renderClean_fixpoint (goIsAbs p) ns k hns hk

/-- C9 counterexample: the path-prefix matcher (matcher A) does not
normalize its inputs — `./foo` does not match the pattern `foo`, although
the cleaned path does. -/
theorem matchPath_not_clean_invariant :
    goClean (gstr "./foo") = gstr "foo" ∧
    goClean (gstr "foo") = gstr "foo" ∧
    matchPath none (gstr "./foo") (gstr "foo") = false ∧
    matchPath none (goClean (gstr "./foo")) (goClean (gstr "foo")) = true := by
  decide

/-- C9 amended: the glob matcher (matcher B) depends only on the cleaned
forms of path and pattern — it cleans both before matching, and cleaning is
idempotent. -/
theorem matchGlob_clean_invariant (path pattern : GoStr) :
    matchGlob path pattern = matchGlob (goClean path) (goClean pattern) := by
  simp only [matchGlob, goClean_idem]

/-- C4 counterexample: a block pattern containing a tab (white space, but
not a space character) is routed to command-position matching, so it does
not deny a command that contains it as a substring. -/
theorem command_block_tab_pattern_not_substring :
    goIsSpace tab = true ∧
    goContainsSub (gstr "echo a" ++ [tab] ++ gstr "b") (gstr "a" ++ [tab] ++ gstr "b") = true ∧
    isCommandBlocked [gstr "a" ++ [tab] ++ gstr "b"] (gstr "echo a" ++ [tab] ++ gstr "b")
      = gstr "" := by
  decide

/-- The classification applied to one block pattern: a pattern containing a
space character is a substring matcher, any other pattern must match in
command position. -/
def blockPatMatches (cmd p : GoStr) : Bool :=
  if goContainsChar p ' ' then goContainsSub cmd p else isCommandInPosition cmd p

/-- C4 amended: for non-empty block patterns, the Bash command blocklist
denies iff some pattern matches — as a substring when the pattern contains
a space (not merely any white space), and otherwise as the first
non-assignment token of some segment of the command split on unquoted
`|`, `||`, `&&`, `;`; in particular `dd` matches `dd if=/dev/zero` and
`ls | dd of=x` but not `cd pkg/odd/file`. -/
theorem commands_block_matching (pats : List GoStr) (cmd : GoStr) :
    ((∀ p ∈ pats, p ≠ []) →
      (isCommandBlocked pats cmd ≠ [] ↔ ∃ p ∈ pats, blockPatMatches cmd p = true)) ∧
    (∀ p : GoStr, isCommandInPosition cmd p = true ↔
      ∃ seg ∈ splitCommandSegments cmd,
        goTrimSpace seg ≠ [] ∧ extractCommandName (goTrimSpace seg) = p) ∧
    isCommandBlocked [gstr "dd"] (gstr "dd if=/dev/zero") = gstr "dd" ∧
    isCommandBlocked [gstr "dd"] (gstr "ls | dd of=x") = gstr "dd" ∧
    isCommandBlocked [gstr "dd"] (gstr "cd pkg/odd/file") = gstr "" := by
  refine ⟨?_, ?_, by decide, by decide, by decide⟩
  · intro hne
    induction pats with
    | nil => simp [isCommandBlocked]
    | cons p rest ih =>
      have hp : p ≠ [] := hne p (List.mem_cons_self _ _)
      have hrest := ih (fun q hq => hne q (List.mem_cons_of_mem p hq))
      simp only [isCommandBlocked]
      by_cases c1 : goContainsChar p ' ' = true
      · rw [if_pos c1]
        by_cases c2 : goContainsSub cmd p = true
        · rw [if_pos c2]
          constructor
          · intro _
            exact ⟨p, List.mem_cons_self _ _, by simp [blockPatMatches, c1, c2]⟩
          · intro _
            exact hp
        · rw [if_neg c2]
          rw [hrest]
          constructor
          · rintro ⟨q, hq, hmatch⟩
            exact ⟨q, List.mem_cons_of_mem p hq, hmatch⟩
          · rintro ⟨q, hq, hmatch⟩
            rcases List.mem_cons.mp hq with rfl | hq
            · exfalso
              rw [blockPatMatches, if_pos c1] at hmatch
              exact c2 hmatch
            · exact ⟨q, hq, hmatch⟩
      · rw [if_neg c1]
        by_cases c3 : isCommandInPosition cmd p = true
        · rw [if_pos c3]
          constructor
          · intro _
            exact ⟨p, List.mem_cons_self _ _, by
              rw [blockPatMatches, if_neg c1]
              exact c3⟩
          · intro _
            exact hp
        · rw [if_neg c3]
          rw [hrest]
          constructor
          · rintro ⟨q, hq, hmatch⟩
            exact ⟨q, List.mem_cons_of_mem p hq, hmatch⟩
          · rintro ⟨q, hq, hmatch⟩
            rcases List.mem_cons.mp hq with rfl | hq
            · exfalso
              rw [blockPatMatches, if_neg c1] at hmatch
              exact c3 hmatch
            · exact ⟨q, hq, hmatch⟩
  · intro p
    simp only [isCommandInPosition, List.any_eq_true, Bool.and_eq_true, decide_eq_true_eq,
      ne_eq]

/-- C4 amended witness: the iff applied to a concrete pattern list and
command. -/
theorem commands_block_matching_witness :
    isCommandBlocked [gstr "dd"] (gstr "ls | dd of=x") ≠ [] :=
  (commands_block_matching [gstr "dd"] (gstr "ls | dd of=x")).1 (by decide) |>.mpr
    ⟨gstr "dd", by decide, by decide⟩

/-- C5: for a commit command (and a configuration whose jj-preference and
protected-branch gates do not fire) from which a non-empty message is
extracted, `EvaluateCommit` denies iff one of the configured commit
constraints is violated: over-long message, lowercase first letter under
`require_uppercase`, trailing period under `no_period`, missing period
under `require_period`, embedded newline under `single_line`, colon under
`forbid_colons`, or a compiled `^prefix_pattern` that does not match. -/
theorem commit_constraints_iff (rx : GoStr → Option (GoStr → Bool)) (r : VersioningCfg)
    (cmd msg : GoStr)
    (hcommit : isCommitCommand cmd = true)
    (hjj : r.tool = gstr "jj" → goContainsSub cmd (gstr "git commit") = false)
    (hbranch : isProtectedBranch r (extractBranchFromCommand cmd) = false)
    (hmsg : extractCommitMessage cmd = msg)
    (hne : msg ≠ []) :
    (evaluateCommit rx r cmd).allowed = false ↔
      ((0 < r.commit.maxLength ∧ r.commit.maxLength < (msg.length : Int)) ∨
       (r.commit.requireUppercase = true ∧
         ∃ first, msg.head? = some first ∧ goIsLetter first = true ∧ goIsUpper first = false) ∨
       (r.commit.noPeriod = true ∧ goHasSuf msg (gstr ".") = true) ∨
       (r.commit.requirePeriod = true ∧ goHasSuf msg (gstr ".") = false) ∨
       (r.commit.singleLine = true ∧ goContainsChar msg nl = true) ∨
       (r.commit.forbidColons = true ∧ goContainsChar msg ':' = true) ∨
       (r.commit.prefixPat ≠ [] ∧
         ∃ f, rx ('^' :: r.commit.prefixPat) = some f ∧ f msg = false)) := by
  have h2 : (decide (r.tool = gstr "jj") && goContainsSub cmd (gstr "git commit")) = false := by
    by_cases ht : r.tool = gstr "jj"
    · simp [ht, hjj ht]
    · simp [ht]
  cases msg with
  | nil => exact absurd rfl hne
  | cons c0 mrest =>
    rcases hrx : rx ('^' :: r.commit.prefixPat) with _ | f <;>
      (simp only [evaluateCommit, hcommit, Bool.not_true, Bool.false_eq_true, if_false, h2,
        hbranch, hmsg, hrx]
       rw [if_neg (show ¬(c0 :: mrest = ([] : GoStr)) by simp)]
       simp only [List.head?_cons]
       split_ifs <;>
         simp_all [Bool.and_eq_true, Bool.not_eq_true', Bool.not_eq_true, Bool.not_eq_false,
           decide_eq_true_eq, ne_eq] <;>
         (intro hu hl
          cases hup : goIsUpper c0
          · simp_all
          · rfl))

/-- Witness for `commit_constraints_iff`: with `require_uppercase` set,
`git commit -m "lowercase"` is denied via the second disjunct. -/
theorem commit_constraints_iff_witness :
    (evaluateCommit rxNone { commit := { requireUppercase := true } }
      (gstr "git commit -m \"lowercase\"")).allowed = false :=
  (commit_constraints_iff rxNone { commit := { requireUppercase := true } }
      (gstr "git commit -m \"lowercase\"") (gstr "lowercase")
      (by decide) (by decide) (by decide) (by decide) (by decide)).mpr
    (Or.inr (Or.inl ⟨rfl, 'l', rfl, by decide, by decide⟩))

/-- C6: the shell parser never adopts a path-like token as an implicit
flag value. A valueless flag with no following token gets the empty value;
when the following token begins with `-` or is path-like (begins with `.`
or `/`, or contains `/`) the flag gets the empty value and the token is
re-processed (so a non-flag path-like token lands in `args`); the token is
adopted exactly when it is neither; and at the `Parse` level every
path-like non-flag token of the flags-and-args region is a positional
argument, visible to the path extractor. -/
theorem parser_no_pathlike_flag_values :
    (∀ t, goHasPre t (gstr "-") = true →
        flagsLoop [t] = ([((parseFlag t).1, (parseFlag t).2)], [])) ∧
    (∀ t next rest2, goHasPre t (gstr "-") = true → (parseFlag t).2 = [] →
        (goHasPre next (gstr "-") = true ∨ pathLike next = true) →
        flagsLoop (t :: next :: rest2)
          = (addIfNew (parseFlag t).1 [] (flagsLoop (next :: rest2)).1,
             (flagsLoop (next :: rest2)).2)) ∧
    (∀ t next rest2, goHasPre t (gstr "-") = true → (parseFlag t).2 = [] →
        goHasPre next (gstr "-") = false → pathLike next = false →
        flagsLoop (t :: next :: rest2)
          = (addIfNew (parseFlag t).1 next (flagsLoop rest2).1,
             (flagsLoop rest2).2)) ∧
    (∀ raw t, t ∈ flagRegion raw → pathLike t = true →
        goHasPre t (gstr "-") = false → t ∈ (wParse raw).args) := by
  refine ⟨?_, ?_, ?_, ?_⟩
  · intro t ht
    simp [flagsLoop, ht]
  · intro t next rest2 ht hv hnext
    have hc : (!goHasPre next (gstr "-") && !goHasPre next (gstr ".")
        && !goHasPre next (gstr "/") && !goContainsChar next '/') = false := by
      rcases hnext with h | h
      · simp [h]
      · simp only [pathLike, Bool.or_eq_true] at h
        rcases h with (h | h) | h <;> simp [h]
    simp only [flagsLoop, ht, if_true, hv, if_pos rfl, hc, Bool.false_eq_true, if_false]
  · intro t next rest2 ht hv h1 h2
    simp only [pathLike, Bool.or_eq_false_iff] at h2
    simp only [flagsLoop, ht, if_true, hv, if_pos rfl]
    rw [if_pos]
    simp [h1, h2.1.1, h2.1.2, h2.2]
  · intro raw t ht hp hm
    exact flagsLoop_pathlike_in_args (flagRegion raw) t ht hp hm

/-- Witness for `parser_no_pathlike_flag_values`: in `tar -f ./archive`
the path-like token `./archive` is not adopted by `-f` and stays a
positional argument. -/
theorem parser_no_pathlike_flag_values_witness :
    gstr "./archive" ∈ (wParse (gstr "tar -f ./archive")).args ∧
    flagsLoop [gstr "-f", gstr "./archive"]
      = (addIfNew (parseFlag (gstr "-f")).1 []
          (flagsLoop [gstr "./archive"]).1, (flagsLoop [gstr "./archive"]).2) :=
  ⟨parser_no_pathlike_flag_values.2.2.2 (gstr "tar -f ./archive") (gstr "./archive")
      (by decide) (by decide) (by decide),
   parser_no_pathlike_flag_values.2.1 (gstr "-f") (gstr "./archive") []
      (by decide) (by decide) (Or.inr (by decide))⟩

/-- A candidate that violates the workspace boundary forces a deny from the
candidate loop. -/
theorem confineLoop_deny_of_boundary (home cwd : Option GoStr) (r : ConfineToWorkspace) :
    ∀ l p, p ∈ l → violatesBoundary home cwd r p = true →
      (confineLoop home cwd r l).allowed = false := by
  intro l
  induction l with
  | nil => simp
  | cons q rest ih =>
    intro p hp hv
    simp only [confineLoop]
    split_ifs with h1 h2 h3
    · rfl
    · rfl
    · rfl
    · rcases List.mem_cons.mp hp with h | h
      · exact absurd (h ▸ hv) h3
      · exact ih p h hv

/-- When no candidate is protected or blocked and some candidate violates
the boundary, the candidate loop returns exactly the boundary denial. -/
theorem confineLoop_boundary_reason (home cwd : Option GoStr) (r : ConfineToWorkspace) :
    ∀ l, (∀ q ∈ l, IsAlwaysProtected home cwd q = false ∧ confineIsBlocked home r q = false) →
      (∃ p ∈ l, violatesBoundary home cwd r p = true) →
      confineLoop home cwd r l
        = { allowed := false,
            reason := gstr "cannot access paths outside the project workspace" } := by
  intro l
  induction l with
  | nil =>
    rintro _ ⟨p, hp, _⟩
    simp at hp
  | cons q rest ih =>
    rintro hok ⟨p, hp, hv⟩
    have hq := hok q (List.mem_cons_self q rest)
    simp only [confineLoop]
    rw [if_neg (show ¬(IsAlwaysProtected home cwd q = true) by simp [hq.1]),
      if_neg (show ¬(confineIsBlocked home r q = true) by simp [hq.2])]
    by_cases hb : violatesBoundary home cwd r q = true
    · rw [if_pos hb]
    · rw [if_neg hb]
      rcases List.mem_cons.mp hp with h | h
      · exact absurd (h ▸ hv) hb
      · exact ih (fun x hx => hok x (List.mem_cons_of_mem q hx)) ⟨p, h, hv⟩

/-- With no working directory the candidate loop denies as soon as a
non-empty candidate appears (fail closed). -/
theorem confineLoop_failclosed (home : Option GoStr) (r : ConfineToWorkspace) :
    ∀ l, (∃ p ∈ l, p ≠ []) → (confineLoop home none r l).allowed = false := by
  intro l
  induction l with
  | nil =>
    rintro ⟨p, hp, _⟩
    simp at hp
  | cons q rest ih =>
    rintro ⟨p, hp, hne⟩
    simp only [confineLoop]
    split_ifs with h1 h2 h3
    · rfl
    · rfl
    · rfl
    · rcases List.mem_cons.mp hp with h | h
      · exact absurd (show violatesBoundary home none r q = true by
          simp [violatesBoundary, h ▸ hne]) h3
      · exact ih ⟨p, h, hne⟩

/-- C2: workspace confinement. A boundary-violating candidate forces a
deny; when no candidate is protected or blocked the denial carries exactly
the reason `cannot access paths outside the project workspace`; a
non-empty candidate violates the boundary iff its absolute form (relative
candidates resolved against the working directory) neither equals the
cleaned working directory nor lies under it and no `workspace.allow`
pattern matches; and when the working directory cannot be determined the
rule fails closed on any non-empty candidate. -/
theorem workspace_boundary_denies :
    (∀ home cwd r cmd p, p ∈ collectPathCandidates cmd →
        violatesBoundary home cwd r p = true →
        (confineEval home cwd r cmd).allowed = false) ∧
    (∀ home cwd r cmd,
        (∀ q ∈ collectPathCandidates cmd,
          IsAlwaysProtected home cwd q = false ∧ confineIsBlocked home r q = false) →
        (∃ p ∈ collectPathCandidates cmd, violatesBoundary home cwd r p = true) →
        confineEval home cwd r cmd
          = { allowed := false,
              reason := gstr "cannot access paths outside the project workspace" }) ∧
    (∀ home c r p, p ≠ [] →
        (violatesBoundary home (some c) r p = true ↔
          ((if goIsAbs p then goClean p else goClean (goJoin2 c p)) ≠ goClean c ∧
           goHasPre (if goIsAbs p then goClean p else goClean (goJoin2 c p))
             (goClean c ++ gstr "/") = false ∧
           confineIsAllowed home r p = false))) ∧
    (∀ home r cmd, (∃ p ∈ collectPathCandidates cmd, p ≠ []) →
        (confineEval home none r cmd).allowed = false) := by
  refine ⟨?_, ?_, ?_, ?_⟩
  · intro home cwd r cmd p hp hv
    exact confineLoop_deny_of_boundary home cwd r _ p hp hv
  · intro home cwd r cmd hok hex
    exact confineLoop_boundary_reason home cwd r _ hok hex
  · intro home c r p hne
    simp only [violatesBoundary]
    rw [if_neg hne]
    split_ifs with h1 h2 <;>
      simp_all [Bool.or_eq_true, decide_eq_true_eq, not_or, ne_eq, Bool.not_eq_true] <;>
      (intro hx hy
       rcases ‹_ ∨ _› with h | h
       · exact absurd h hx
       · exact absurd h (by simp [hy]))
  · intro home r cmd hex
    exact confineLoop_failclosed home r _ hex

/-- Witness for `workspace_boundary_denies`: `cat /etc/passwd` from
workspace `/h/proj` is denied with the boundary reason, and with an
unavailable working directory `cat x` is denied. -/
theorem workspace_boundary_denies_witness :
    confineEval (some (gstr "/h")) (some (gstr "/h/proj")) ⟨[], []⟩
        (wParse (gstr "cat /etc/passwd"))
      = { allowed := false,
          reason := gstr "cannot access paths outside the project workspace" } ∧
    (confineEval (some (gstr "/h")) none ⟨[], []⟩ (wParse (gstr "cat x"))).allowed = false :=
  ⟨workspace_boundary_denies.2.1 (some (gstr "/h")) (some (gstr "/h/proj")) ⟨[], []⟩
      (wParse (gstr "cat /etc/passwd")) (by decide)
      ⟨gstr "/etc/passwd", by decide, by decide⟩,
   workspace_boundary_denies.2.2.2 (some (gstr "/h")) ⟨[], []⟩ (wParse (gstr "cat x"))
      ⟨gstr "x", by decide, by decide⟩⟩

/-- Configuration for the C3 counterexample: incremental rule on with a
10-file budget, one external hook listening on `Write`. -/
def c3cfg : WConfig :=
  { rules := { incremental := true },
    incremental := { maxFiles := 10, warnRatio := mkRat 7 10 },
    hooks := [{ name := gstr "h", tools := [gstr "Write"] }] }

/-- Input for the C3 counterexample. -/
def c3input : HookInputW := ⟨gstr "Write", { filePath := some (gstr "a.go") }⟩

/-- C3 environment with the changed-file counter inside the warning zone
and an external hook that denies. -/
def c3envWarn : Env :=
  { home := some (gstr "/h"), cwd := some (gstr "/h/proj"), gitCount := 8,
    execHook := fun _ => { allowed := false, reason := gstr "no" } }

/-- C3 environment identical to `c3envWarn` except that the counter is
below the warning zone. -/
def c3envCold : Env :=
  { home := some (gstr "/h"), cwd := some (gstr "/h/proj"), gitCount := 0,
    execHook := fun _ => { allowed := false, reason := gstr "no" } }

/-- C3 counterexample: an allowed-with-warning incremental result stops the
pipeline — the denying external hook never runs and the final decision is
allow-with-warning, while the identical request outside the warning zone
reaches the hook and is denied.  So a warning does stop evaluation of the
remaining rules and changes the final `allowed` relative to the
no-warning run. -/
theorem incremental_warning_skips_hooks :
    (hookEvaluate c3envWarn c3cfg c3input).allowed = true ∧
    (hookEvaluate c3envWarn c3cfg c3input).warning ≠ [] ∧
    (hookEvaluate c3envCold c3cfg c3input).allowed = false := by
  refine ⟨by decide, by decide, by decide⟩

/-- The warnings accumulated so far never influence the `allowed` outcome
of the external-hook loop. -/
theorem hooksLoop_allowed_indep (env : Env) (t : GoStr) (paths : List GoStr) :
    ∀ hooks i w1 w2,
      (hooksLoop env t paths hooks i w1).allowed
        = (hooksLoop env t paths hooks i w2).allowed := by
  intro hooks
  induction hooks with
  | nil =>
    intro i w1 w2
    simp only [hooksLoop]
    split_ifs <;> rfl
  | cons h rest ih =>
    intro i w1 w2
    simp only [hooksLoop]
    split_ifs <;> first | rfl | apply ih

/-- C3 amended: warnings never flip `allowed` — appending reminder
warnings preserves the decision, and the hook loop's accumulated warnings
do not affect its outcome — but an allowed-with-warning incremental result
short-circuits the pipeline: when the earlier stages pass and the
incremental rule allows with a warning on a non-Bash modification tool,
`Evaluate` returns that result (with reminders appended) immediately,
skipping the invariants rule and the external hooks. -/
theorem warnings_never_change_allowed :
    (∀ env r, (withRemindersE env r).allowed = r.allowed) ∧
    (∀ env t paths hooks i w1 w2,
      (hooksLoop env t paths hooks i w1).allowed
        = (hooksLoop env t paths hooks i w2).allowed) ∧
    (∀ env cfg input,
      isToolBlockedE cfg input.toolName = false →
      isToolAllowedE cfg input.toolName = true →
      isFilesystemToolE input.toolName = true →
      input.toolName ≠ gstr "Bash" →
      (ExtractPaths input.toolName input.toolInput).any
        (fun p => IsAlwaysProtected env.home env.cwd p) = false →
      (cfg.rules.workspace && !(evaluateWorkspaceE env cfg input).allowed) = false →
      (cfg.rules.scope && !(evaluateScopeE cfg input).allowed) = false →
      cfg.rules.incremental = true →
      isModificationToolE input.toolName = true →
      (evaluateIncrementalE env cfg).allowed = true →
      (evaluateIncrementalE env cfg).warning ≠ [] →
      hookEvaluate env cfg input = withRemindersE env (evaluateIncrementalE env cfg)) := by
  refine ⟨?_, ?_, ?_⟩
  · intro env r
    simp only [withRemindersE]
    split_ifs <;> rfl
  · intro env t paths hooks i w1 w2
    exact hooksLoop_allowed_indep env t paths hooks i w1 w2
  · intro env cfg input h1 h2 h3 hnb h5 h6 h7 h9 h10 h11 h12
    simp only [hookEvaluate]
    rw [if_neg (by simp [h1]), if_neg (by simp [h2]), if_neg (by simp [h3]),
      if_neg hnb, if_neg (show ¬(([] : GoStr) ≠ []) by simp),
      if_neg (by simp [h5]), if_neg (by simp [h6]), if_neg (by simp [h7]),
      if_neg (by simp [hnb]), if_neg (by simp [h9, h10, h11]),
      if_pos (by simp [h9, h10, h12])]

/-- Witness for `warnings_never_change_allowed`: the short-circuit applies
to the concrete warning-zone scenario, and reminder appending preserves a
concrete denial. -/
theorem warnings_never_change_allowed_witness :
    hookEvaluate c3envWarn c3cfg c3input
      = withRemindersE c3envWarn (evaluateIncrementalE c3envWarn c3cfg) ∧
    (withRemindersE c3envWarn { allowed := false, reason := gstr "no" }).allowed = false :=
  ⟨warnings_never_change_allowed.2.2 c3envWarn c3cfg c3input
      (by decide) (by decide) (by decide) (by decide) (by decide) (by decide) (by decide)
      (by decide) (by decide) (by decide) (by decide),
   warnings_never_change_allowed.1 c3envWarn { allowed := false, reason := gstr "no" }⟩
